import Mathlib

/-!
# Verification of the odexpo gallery scraper

Shallow embedding, in Lean 4, of the parts of the `scrap-odexpo` Python
repository that the specification's claims talk about:

* `src/config.py` — configuration constants;
* `src/utils/helpers.py` — `is_allowed_domain`, `is_image_url`,
  `clean_description_for_folder`, `download_image`, `load_metadata`,
  `get_downloaded_urls_from_metadata`;
* `src/crawler.py` — `clean_text_field`, `fix_dimensions_spacing`, the
  caption-dimension extraction, `_download_image_from_lightbox`, the
  lightbox download call site, the pagination filter and
  `crawl_category_completely`;
* `src/advanced_crawler.py` — `_extract_category_from_url`,
  `_get_pagination_urls`, `crawl_category_completely`;
* `src/rename_files.py` — `clean_category`, `clean_title_for_filename`,
  `extract_last_three_digits`, `create_new_filename`,
  `rename_files_in_metadata`.

Python strings are modelled by `String` / `List Char`; Python sets and the
filesystem are modelled by explicit lists threaded through the translated
functions; the network and the JSON parser are modelled by explicit oracle
arguments (`Option` values / functions), so that every fallible effect of
the original code appears as a case split in the embedding.
-/

namespace Scrap

/-! ## Configuration (`src/config.py`) -/

def ALLOWED_DOMAIN : String := "fabienne-vincent.odexpo.com"

def BASE_URL : String := "https://" ++ ALLOWED_DOMAIN

def IMAGES_DIR : String := "assets/images"

def SUPPORTED_IMAGE_EXTENSIONS : List String :=
  [".jpg", ".jpeg", ".png", ".gif", ".webp", ".bmp"]

def MAX_IMAGE_SIZE : Nat := 50 * 1024 * 1024

def PAGINATION_KEYWORDS : List String :=
  ["1", "2", "3", "4", "5", "6", "7", "8", "9", "10"]

def CATEGORY_URL_PATTERNS : List String := ["galerie=", "ng="]

/-! ## Basic Python string primitives

The Python code manipulates `str` values through slicing, `strip`,
`lower`, `split` and small regular expressions.  We model characters of
interest at the `List Char` level.  `\s` of Python's `re` module is
modelled by the ASCII whitespace characters plus U+00A0 (the repository's
inputs never contain more exotic Unicode whitespace). -/

def pyIsSpace (c : Char) : Bool :=
  c = ' ' || c = '\t' || c = '\n' || c = '\r' ||
  c = '\x0b' || c = '\x0c' || c = ' '

/-- Python `str.strip()` : drop leading and trailing whitespace. -/
def pyStripList (l : List Char) : List Char :=
  ((l.dropWhile pyIsSpace).reverse.dropWhile pyIsSpace).reverse

def pyStrip (s : String) : String := String.mk (pyStripList s.data)

/-- Python `str.strip(chars)` for a one-character set. -/
def pyStripCharList (c : Char) (l : List Char) : List Char :=
  ((l.dropWhile (· = c)).reverse.dropWhile (· = c)).reverse

def pyStripChar (c : Char) (s : String) : String :=
  String.mk (pyStripCharList c s.data)

/-- ASCII lowercasing, as used on the URLs and slugs of this repository. -/
def pyLower (s : String) : String := String.mk (s.data.map Char.toLower)

/-- Python `sub in s` (substring test). -/
def pyContains (s sub : String) : Bool := decide (sub.data <:+: s.data)

/-- Python `s.isdigit()` : nonempty and all characters are digits. -/
def pyIsDigitStr (s : String) : Bool := s ≠ "" && s.data.all Char.isDigit

/-- Worker for `collapseRuns`: `inRun` records whether the previous
character belonged to a run of characters satisfying `p` (in which case
the replacement character has already been emitted). -/
def collapseRunsAux (p : Char → Bool) (rep : Char) : Bool → List Char → List Char
  | _, [] => []
  | inRun, c :: cs =>
    if p c then
      (if inRun then [] else [rep]) ++ collapseRunsAux p rep true cs
    else c :: collapseRunsAux p rep false cs

/-- Replace every maximal run of characters satisfying `p` by the single
character `rep`.  This models the global substitutions
`re.sub(r'[..]+', rep, s)` appearing throughout the repository. -/
def collapseRuns (p : Char → Bool) (rep : Char) (l : List Char) : List Char :=
  collapseRunsAux p rep false l

/-- First index of character `c` from the right, if any. -/
def lastIdxOf (l : List Char) (c : Char) : Option Nat :=
  match l.reverse.indexOf? c with
  | none => none
  | some i => some (l.length - 1 - i)

/-- `os.path.splitext` (posix): split off the extension at the last dot,
provided the dot is inside the basename and not part of a leading run of
dots. -/
def splitext (s : String) : String × String :=
  let l := s.data
  match lastIdxOf l '.' with
  | none => (s, "")
  | some d =>
    let s0 : Nat := match lastIdxOf l '/' with
      | none => 0
      | some sep => sep + 1
    if s0 < d && ((l.drop s0).take (d - s0)).any (· ≠ '.') then
      (String.mk (l.take d), String.mk (l.drop d))
    else (s, "")

/-! ## `extract_last_three_digits` (`src/rename_files.py`) -/

/-- `extract_last_three_digits` from `src/rename_files.py`: all digit
characters of the filename without its extension
(`re.findall(r'\d', name)`), then the last three, zero-filled. -/
def extract_last_three_digits (filename : String) : String :=
  let name_without_ext := (splitext filename).1
  let digits := name_without_ext.data.filter Char.isDigit
  if digits.length ≥ 3 then
    String.mk (digits.drop (digits.length - 3))
  else if digits.length > 0 then
    String.mk (List.replicate (3 - digits.length) '0' ++ digits)
  else "000"

/-- The specification's description of `last_three_digits`: concatenate
all digit characters of the extension-stripped filename, keep the final
three, left-zero-pad to width three (which yields `"000"` when no digit
exists). -/
def lastThreeDigitsSpec (filename : String) : String :=
  let digits := (splitext filename).1.data.filter Char.isDigit
  String.mk
    (List.replicate (3 - digits.length) '0' ++ digits.drop (digits.length - 3))

/-! ## `clean_category` (`src/rename_files.py`)

`clean_category` lowercases, strips accents (`unicodedata.normalize('NFD')`
followed by removal of combining marks), replaces runs of underscores and
whitespace by a hyphen, deletes everything outside `[a-z0-9-]`, collapses
hyphen runs and strips outer hyphens.  The Unicode steps are modelled
charwise: `NFD` followed by dropping the combining marks sends each
character independently to its canonical decomposition with the marks
removed, which for the Latin range handled by this gallery is the table
`latinFoldTable` (characters without a canonical decomposition are kept
unchanged). -/

/-- Python `str.lower()` restricted to ASCII and the Latin-1 uppercase
letters (U+00C0–U+00DE without the multiplication sign U+00D7), the range
exercised by this repository. -/
def pyLowerChar (c : Char) : Char :=
  if 65 ≤ c.toNat ∧ c.toNat ≤ 90 then Char.ofNat (c.toNat + 32)
  else if 192 ≤ c.toNat ∧ c.toNat ≤ 222 ∧ c.toNat ≠ 215 then
    Char.ofNat (c.toNat + 32)
  else c

/-- Canonical decompositions (with combining marks dropped) of the
lowercase Latin-1 letters: the effect of
`unicodedata.normalize('NFD', s)` followed by removing the characters of
category `Mn`, char by char. -/
def latinFoldTable : List (Char × List Char) :=
  [('à', ['a']), ('á', ['a']), ('â', ['a']), ('ã', ['a']), ('ä', ['a']),
   ('å', ['a']), ('ç', ['c']), ('è', ['e']), ('é', ['e']), ('ê', ['e']),
   ('ë', ['e']), ('ì', ['i']), ('í', ['i']), ('î', ['i']), ('ï', ['i']),
   ('ñ', ['n']), ('ò', ['o']), ('ó', ['o']), ('ô', ['o']), ('õ', ['o']),
   ('ö', ['o']), ('ù', ['u']), ('ú', ['u']), ('û', ['u']), ('ü', ['u']),
   ('ý', ['y']), ('ÿ', ['y'])]

def latinFoldChar (c : Char) : List Char :=
  match latinFoldTable.find? (fun e => e.1 == c) with
  | some e => e.2
  | none => [c]

/-- The character class `[_\s]` of `re.sub(r'[_\s]+', '-', s)`. -/
def isCatSepChar (c : Char) : Bool := c = '_' || pyIsSpace c

/-- The character class `[a-z0-9-]` (`re.sub(r'[^a-z0-9-]', '', s)`
keeps exactly these characters): `a`–`z` is 97–122, `0`–`9` is 48–57 and
`-` is 45. -/
def isCatAllowed (c : Char) : Bool :=
  (97 ≤ c.toNat && c.toNat ≤ 122) || (48 ≤ c.toNat && c.toNat ≤ 57) ||
    c.toNat = 45

/-- The character class `[-]` of `re.sub(r'-+', '-', s)`. -/
def isHyphen (c : Char) : Bool := c = '-'

/-- The character-level pipeline of `clean_category`. -/
def cleanCategoryList (l : List Char) : List Char :=
  let lowered := l.map pyLowerChar
  let folded := lowered.flatMap latinFoldChar
  let hyphened := collapseRuns isCatSepChar '-' folded
  let filtered := hyphened.filter isCatAllowed
  let collapsed := collapseRuns isHyphen '-' filtered
  pyStripCharList '-' collapsed

/-- `clean_category` from `src/rename_files.py` (the spec's
`slugify_category`). -/
def clean_category (category : String) : String :=
  if category = "" then "miscellaneous"
  else
    let cleaned := cleanCategoryList category.data
    if cleaned = [] then "miscellaneous" else String.mk cleaned

/-! ## Text cleaning (`src/crawler.py`)

`clean_text_field` decodes HTML entities (`html.unescape`; modelled for
the named entities occurring on this site), removes HTML tags
(`re.sub(r'<[^>]+>', '', s)`), collapses whitespace runs to one space and
strips.  The tag remover consumes a variable number of characters per
step, so it is written with an explicit step counter (`l.length` steps
always suffice because every step consumes at least one character). -/

/-- `html.unescape`, modelled for the six named entities that occur in
this repository's pages; all other text is returned unchanged. -/
def htmlUnescapeList : List Char → List Char
  | [] => []
  | '&' :: 'a' :: 'm' :: 'p' :: ';' :: rest => '&' :: htmlUnescapeList rest
  | '&' :: 'l' :: 't' :: ';' :: rest => '<' :: htmlUnescapeList rest
  | '&' :: 'g' :: 't' :: ';' :: rest => '>' :: htmlUnescapeList rest
  | '&' :: 'q' :: 'u' :: 'o' :: 't' :: ';' :: rest => '"' :: htmlUnescapeList rest
  | '&' :: '#' :: '3' :: '9' :: ';' :: rest => '\'' :: htmlUnescapeList rest
  | '&' :: 'n' :: 'b' :: 's' :: 'p' :: ';' :: rest => ' ' :: htmlUnescapeList rest
  | c :: rest => c :: htmlUnescapeList rest

/-- After a `<` and its first non-`>` character: the characters following
the first `>`, if one exists. -/
def afterGt : List Char → Option (List Char)
  | [] => none
  | '>' :: r => some r
  | _ :: r => afterGt r

/-- `<[^>]+>` needs at least one non-`>` character between the brackets. -/
def findTagEnd : List Char → Option (List Char)
  | [] => none
  | '>' :: _ => none
  | _ :: rest => afterGt rest

def stripTagsGo : Nat → List Char → List Char
  | 0, l => l
  | _ + 1, [] => []
  | n + 1, '<' :: cs =>
    match findTagEnd cs with
    | some rest => stripTagsGo n rest
    | none => '<' :: stripTagsGo n cs
  | n + 1, c :: cs => c :: stripTagsGo n cs

/-- `re.sub(r'<[^>]+>', '', s)`. -/
def stripTagsList (l : List Char) : List Char := stripTagsGo l.length l

/-- `clean_text_field` from `src/crawler.py`. -/
def clean_text_field (text : String) : String :=
  if text = "" then ""
  else
    pyStrip (String.mk
      (collapseRuns pyIsSpace ' ' (stripTagsList (htmlUnescapeList text.data))))

/-! ## `fix_dimensions_spacing` (`src/crawler.py`)

Two global substitutions: `re.sub(r'x(\d+)\s+(\d+)', r'x\1\2', s)` and
then `re.sub(r'x\s+(\d+)\s+(\d+)', r'x\1\2', s)`.  The character classes
`\d` and `\s` are disjoint, so the greedy matches are deterministic and
each substitution is a single left-to-right scan; as with the tag
remover, the scans carry a step counter bounded by the input length. -/

def fixSub1Go : Nat → List Char → List Char
  | 0, l => l
  | _ + 1, [] => []
  | n + 1, c :: cs =>
    if c = 'x' then
      let d1 := cs.takeWhile Char.isDigit
      let r1 := cs.dropWhile Char.isDigit
      let ws := r1.takeWhile pyIsSpace
      let r2 := r1.dropWhile pyIsSpace
      let d2 := r2.takeWhile Char.isDigit
      let r3 := r2.dropWhile Char.isDigit
      if d1 ≠ [] ∧ ws ≠ [] ∧ d2 ≠ [] then 'x' :: (d1 ++ d2 ++ fixSub1Go n r3)
      else c :: fixSub1Go n cs
    else c :: fixSub1Go n cs

def fixSub2Go : Nat → List Char → List Char
  | 0, l => l
  | _ + 1, [] => []
  | n + 1, c :: cs =>
    if c = 'x' then
      let ws1 := cs.takeWhile pyIsSpace
      let r1 := cs.dropWhile pyIsSpace
      let d1 := r1.takeWhile Char.isDigit
      let r2 := r1.dropWhile Char.isDigit
      let ws2 := r2.takeWhile pyIsSpace
      let r3 := r2.dropWhile pyIsSpace
      let d2 := r3.takeWhile Char.isDigit
      let r4 := r3.dropWhile Char.isDigit
      if ws1 ≠ [] ∧ d1 ≠ [] ∧ ws2 ≠ [] ∧ d2 ≠ [] then
        'x' :: (d1 ++ d2 ++ fixSub2Go n r4)
      else c :: fixSub2Go n cs
    else c :: fixSub2Go n cs

/-- `fix_dimensions_spacing` from `src/crawler.py`. -/
def fix_dimensions_spacing (text : String) : String :=
  if text = "" then ""
  else
    String.mk (fixSub2Go (fixSub1Go text.data.length text.data).length
      (fixSub1Go text.data.length text.data))

/-! ## The caption dimension regex (`src/crawler.py`)

`re.search(r'\b(\d+(?:\.\d+)?\s*x\s*\d+(?:\.\d+)?(?:\s*cm)?)\b', info,
re.IGNORECASE)`, leftmost match, group 1.  `\w` (for `\b`) is modelled
over ASCII, the repertoire of these captions. -/

def pyIsWord (c : Char) : Bool := c.isAlphanum || c = '_'

/-- A word boundary after a word character: the following characters must
start with a non-word character (or be empty). -/
def boundaryOk (rest : List Char) : Bool :=
  match rest.head? with
  | none => true
  | some c => !pyIsWord c

/-- `(?:\.\d+)?` : an optional fraction part; returns the consumed
characters and the remainder. -/
def matchFrac : List Char → List Char × List Char
  | '.' :: rest =>
    let d := rest.takeWhile Char.isDigit
    if d = [] then ([], '.' :: rest)
    else ('.' :: d, rest.dropWhile Char.isDigit)
  | l => ([], l)

/-- Try the dimension pattern at the start of `l`; on success return the
matched characters (group 1). -/
def matchDimAt (l : List Char) : Option (List Char) :=
  let d1 := l.takeWhile Char.isDigit
  if d1 = [] then none
  else
    let r1 := l.dropWhile Char.isDigit
    let (f1, r2) := matchFrac r1
    let ws1 := r2.takeWhile pyIsSpace
    let r3 := r2.dropWhile pyIsSpace
    match r3 with
    | [] => none
    | x :: r4 =>
      if x.toLower = 'x' then
        let ws2 := r4.takeWhile pyIsSpace
        let r5 := r4.dropWhile pyIsSpace
        let d2 := r5.takeWhile Char.isDigit
        if d2 = [] then none
        else
          let r6 := r5.dropWhile Char.isDigit
          let (f2, r7) := matchFrac r6
          let core := d1 ++ f1 ++ ws1 ++ x :: (ws2 ++ d2 ++ f2)
          let ws3 := r7.takeWhile pyIsSpace
          let r8 := r7.dropWhile pyIsSpace
          match r8 with
          | c1 :: c2 :: r9 =>
            if c1.toLower = 'c' ∧ c2.toLower = 'm' ∧ boundaryOk r9 then
              some (core ++ ws3 ++ [c1, c2])
            else if boundaryOk r7 then some core else none
          | _ => if boundaryOk r7 then some core else none
      else none

/-- `re.search` of the dimension pattern: try every position from the
left; the flag records whether the previous character is a word character
(the `\b` before the leading digit). -/
def searchDimGo : Bool → List Char → Option (List Char)
  | _, [] => none
  | prevW, c :: cs =>
    if prevW then searchDimGo (pyIsWord c) cs
    else
      match matchDimAt (c :: cs) with
      | some m => some m
      | none => searchDimGo (pyIsWord c) cs

def searchDim (l : List Char) : Option (List Char) := searchDimGo false l

/-- The dimensions field computed by `crawl_page_thoroughly`
(`src/crawler.py` lines 388–410) from the caption's secondary line:
clean, fix spacing, search the dimension pattern and clean the matched
substring again. -/
def caption_dimensions (raw_info : String) : String :=
  let info := fix_dimensions_spacing (clean_text_field raw_info)
  match searchDim info.data with
  | some m => clean_text_field (fix_dimensions_spacing (String.mk m))
  | none => ""

/-! ## URL parsing (`urllib.parse` as used by the repository)

`urlparse` splits the fragment at the first `#`, the query at the first
`?`, and — for URLs carrying a `scheme://netloc` part — the network
location between `://` and the next `/`.  `parse_qs` splits the query on
`&`, drops chunks without `=` and chunks with a blank value, and
percent-decodes names and values (`unquote_plus`; modelled for
single-byte escapes, the repertoire of this site's query strings). -/

def cutAtChar (c : Char) (l : List Char) : List Char := l.takeWhile (· ≠ c)

/-- Everything after the first occurrence of `c` (empty if absent). -/
def afterFirstChar (c : Char) (l : List Char) : List Char :=
  match l.dropWhile (· ≠ c) with
  | [] => []
  | _ :: r => r

/-- The query component: before the fragment, after the first `?`. -/
def urlQuery (url : String) : String :=
  String.mk (afterFirstChar '?' (cutAtChar '#' url.data))

/-- `scheme://netloc` of a URL (the whole string when `://` is absent). -/
def originAux : List Char → List Char
  | [] => []
  | ':' :: '/' :: '/' :: rest => ':' :: '/' :: '/' :: rest.takeWhile (· ≠ '/')
  | c :: rest => c :: originAux rest

def urlOrigin (url : String) : String := String.mk (originAux url.data)

/-- The characters after `scheme://netloc`, when a `://` marker exists. -/
def afterNetlocAux : List Char → Option (List Char)
  | [] => none
  | ':' :: '/' :: '/' :: rest => some (rest.dropWhile (· ≠ '/'))
  | _ :: rest => afterNetlocAux rest

/-- `urlparse(url).path`. -/
def urlPath (url : String) : String :=
  let pre := cutAtChar '?' (cutAtChar '#' url.data)
  match afterNetlocAux pre with
  | some p => String.mk p
  | none => String.mk pre

def netlocAux : List Char → Option (List Char)
  | [] => none
  | ':' :: '/' :: '/' :: rest =>
    some (rest.takeWhile (fun c => c ≠ '/' && c ≠ '?' && c ≠ '#'))
  | _ :: rest => netlocAux rest

/-- `urlparse(url).netloc`. -/
def urlNetloc (url : String) : String :=
  match netlocAux url.data with
  | some n => String.mk n
  | none => ""

def hexDigitVal : Char → Option Nat := fun c =>
  if 48 ≤ c.toNat ∧ c.toNat ≤ 57 then some (c.toNat - 48)
  else if 97 ≤ c.toNat ∧ c.toNat ≤ 102 then some (c.toNat - 87)
  else if 65 ≤ c.toNat ∧ c.toNat ≤ 70 then some (c.toNat - 55)
  else none

/-- `urllib.parse.unquote_plus`: `+` becomes a space and `%XY` a byte;
multi-byte UTF-8 recombination is not modelled (this site's query values
are single-byte). -/
def unquotePlusList : List Char → List Char
  | [] => []
  | '+' :: rest => ' ' :: unquotePlusList rest
  | '%' :: a :: b :: rest =>
    match hexDigitVal a, hexDigitVal b with
    | some ha, some hb => Char.ofNat (16 * ha + hb) :: unquotePlusList rest
    | _, _ => '%' :: unquotePlusList (a :: b :: rest)
  | c :: rest => c :: unquotePlusList rest

def unquote_plus (s : String) : String := String.mk (unquotePlusList s.data)

/-- `str.split(sep)` for a one-character separator (keeps empty
chunks, as Python does). -/
def splitOnCharAux (sep : Char) : List Char → List Char → List (List Char)
  | [], acc => [acc.reverse]
  | c :: cs, acc =>
    if c = sep then acc.reverse :: splitOnCharAux sep cs []
    else splitOnCharAux sep cs (c :: acc)

def splitOnChar (sep : Char) (l : List Char) : List (List Char) :=
  splitOnCharAux sep l []

/-- `urllib.parse.parse_qsl` with the default `keep_blank_values=False`:
split on `&`, drop empty chunks, chunks without `=` and chunks with a
blank value, decode names and values. -/
def parse_qsl (query : String) : List (String × String) :=
  (splitOnChar '&' query.data).filterMap fun chunk =>
    if chunk = [] then none
    else
      let pre := chunk.takeWhile (· ≠ '=')
      match chunk.dropWhile (· ≠ '=') with
      | [] => none
      | _ :: v =>
        if v = [] then none
        else some (String.mk (unquotePlusList pre),
          String.mk (unquotePlusList v))

/-- `parse_qs(urlparse(url).query).get(key, [''])[0]`, as an `Option`:
the first value bound to `key`, if any. -/
def getQueryParam (url key : String) : Option String :=
  ((parse_qsl (urlQuery url)).find? (fun e => e.1 == key)).map (·.2)

/-- Python `s.startswith(pre)`. -/
def strStartsWith (s pre : String) : Bool := decide (pre.data <+: s.data)

/-- Python `s.endswith(suf)`. -/
def strEndsWith (s suf : String) : Bool := decide (suf.data <:+ s.data)

/-- `urljoin(base, rel)` for the two shapes this repository produces: a
rel starting with `/` replaces the base path, otherwise rel replaces the
last segment of the base path (RFC 3986 merge without dot-segment
normalization; rels carrying their own scheme are returned unchanged). -/
def urljoin (base rel : String) : String :=
  if strStartsWith rel "http" then rel
  else if strStartsWith rel "/" then urlOrigin base ++ rel
  else
    let pre := cutAtChar '?' (cutAtChar '#' base.data)
    String.mk ((pre.reverse.dropWhile (· ≠ '/')).reverse) ++ rel

/-- `os.path.basename` of a path without separators beyond `/`. -/
def basenameList (l : List Char) : List Char :=
  (l.reverse.takeWhile (· ≠ '/')).reverse

/-! ## Domain and extension predicates (`src/utils/helpers.py`) -/

/-- `is_allowed_domain` from `src/utils/helpers.py`. -/
def is_allowed_domain (url : String) : Bool :=
  let domain := pyLower (urlNetloc url)
  domain == ALLOWED_DOMAIN || domain == "www." ++ ALLOWED_DOMAIN

/-- `is_image_url` from `src/utils/helpers.py`. -/
def is_image_url (url : String) : Bool :=
  let path := pyLower (urlPath url)
  SUPPORTED_IMAGE_EXTENSIONS.any (fun ext => strEndsWith path ext)

/-! ## `clean_description_for_folder` (`src/utils/helpers.py`) -/

def isCommaNlTab (c : Char) : Bool :=
  c = ',' || c = '\n' || c = '\r' || c = '\t'

/-- `re.sub(r'[<>:"/\\|?*]', '_', s)`, charwise. -/
def replProblemChar (c : Char) : Char :=
  if c = '<' || c = '>' || c = ':' || c = '"' || c = '/' || c = '\\' ||
      c = '|' || c = '?' || c = '*' then '_'
  else c

/-- The explicit accent classes of `clean_description_for_folder`
(`[àáâãäå]→a`, `[èéêë]→e`, `[ìíîï]→i`, `[òóôõö]→o`, `[ùúûü]→u`,
`[ç]→c`), charwise. -/
def foldAccentChar (c : Char) : Char :=
  if c = 'à' || c = 'á' || c = 'â' || c = 'ã' || c = 'ä' then 'a'
  else if c = 'è' || c = 'é' || c = 'ê' || c = 'ë' then 'e'
  else if c = 'ì' || c = 'í' || c = 'î' || c = 'ï' then 'i'
  else if c = 'ò' || c = 'ó' || c = 'ô' || c = 'õ' || c = 'ö' then 'o'
  else if c = 'ù' || c = 'ú' || c = 'û' || c = 'ü' then 'u'
  else if c = 'ç' then 'c'
  else c

/-- `clean_description_for_folder` from `src/utils/helpers.py`. -/
def clean_description_for_folder (description : String) : String :=
  if description = "" then "miscellaneous"
  else
    let cleaned := stripTagsList description.data
    let cleaned := collapseRuns pyIsSpace ' ' (pyStripList cleaned)
    let first_part := pyStripList (cleaned.takeWhile (fun c => !isCommaNlTab c))
    let cleaned := if first_part ≠ [] then first_part else cleaned
    let cleaned := cleaned.map replProblemChar
    let cleaned := cleaned.map foldAccentChar
    let cleaned := cleaned.map pyLowerChar
    let cleaned := cleaned.map (fun c => if c = ' ' then '_' else c)
    let cleaned := collapseRuns (fun c => c = '_') '_' cleaned
    let cleaned := pyStripCharList '_' cleaned
    if cleaned = [] ∨ cleaned.length < 2 then "miscellaneous"
    else String.mk (cleaned.take 50)

/-! ## `download_image` (`src/utils/helpers.py`)

The state threaded through the download is the written files (path and
bytes), the created directories and the duplicate set `downloaded_urls`.
The network is the oracle `net` (`none` = request/read raised; otherwise
status and payload bytes), the write is the oracle `writeOk` (`false` =
`aiofiles` write raised, caught by the surrounding `try`), and
`time.time()` is the argument `now`. -/

structure ImageInfo where
  src : String
  desc : String
  alt : String
  source_page : String
  page_title : String
  crawl_run : String
  score : Nat
deriving DecidableEq

structure ImageRecord where
  filename : String
  original_url : String
  local_path : String
  file_size : Nat
  downloaded_at : Nat
  source_page : String
  page_title : String
  alt_text : String
  description : String
  cleaned_description : String
  category : String
  crawl_run : String
  score : Nat
deriving DecidableEq

structure DlState where
  files : List (String × List Nat)
  dirs : List String
  downloaded_urls : List String
deriving DecidableEq

/-- `is_duplicate_image` from `src/utils/helpers.py`. -/
def is_duplicate_image (image_url : String) (downloaded_urls : List String) :
    Bool := image_url ∈ downloaded_urls

/-- The relative-to-absolute conversion at the top of `download_image`. -/
def absolutize_image_url (base_url image_url : String) : String :=
  if strStartsWith image_url "/" || !strStartsWith image_url "http" then
    if strStartsWith image_url "//" then "https:" ++ image_url
    else urljoin base_url image_url
  else image_url

/-- `f"{base_name}_{counter}{ext}"`, the conflict candidates (`k = 0` is
the original filename). -/
def candidateName (base ext : String) (k : Nat) : String :=
  if k = 0 then base ++ ext else base ++ "_" ++ toString k ++ ext

/-- The `while os.path.exists(final_path)` conflict loop.  Every
candidate embeds a distinct counter, so a taken path can never recur;
erasing each hit therefore keeps the loop's semantics while bounding the
scan by the number of existing files. -/
def resolveConflictGo (dir base ext : String) :
    Nat → List String → Nat → String
  | 0, _, k => candidateName base ext k
  | n + 1, fs, k =>
    let fname := candidateName base ext k
    if dir ++ "/" ++ fname ∈ fs then
      resolveConflictGo dir base ext n (fs.erase (dir ++ "/" ++ fname)) (k + 1)
    else fname

def resolveConflictName (fs : List String) (dir base ext : String) : String :=
  resolveConflictGo dir base ext (fs.length + 1) fs 0

/-- `download_image` from `src/utils/helpers.py`. -/
def download_image (info : ImageInfo) (base_url : String) (st : DlState)
    (net : Option (Nat × List Nat)) (writeOk : Bool) (now : Nat)
    (custom_images_dir : Option String) : Option ImageRecord × DlState :=
  if info.src = "" then (none, st)
  else
    let image_url := absolutize_image_url base_url info.src
    if image_url ∈ st.downloaded_urls then (none, st)
    else
      match net with
      | none => (none, st)
      | some (status, content) =>
        if status = 200 then
          let description :=
            if info.desc ≠ "" then info.desc
            else if info.alt ≠ "" then info.alt
            else "No description"
          let cleaned_description := clean_description_for_folder description
          let category_from_url : Option String :=
            if pyContains info.source_page "ng=" then
              match getQueryParam info.source_page "ng" with
              | some ng_value => some (pyStrip (unquote_plus ng_value))
              | none => none
            else none
          let final_category :=
            match category_from_url with
            | some c => if c ≠ "" then c else cleaned_description
            | none => cleaned_description
          let images_dir := custom_images_dir.getD IMAGES_DIR ++ "/" ++
            clean_description_for_folder final_category
          let dirs' := if images_dir ∈ st.dirs then st.dirs
            else images_dir :: st.dirs
          let filename0 := String.mk (basenameList (urlPath image_url).data)
          let filename1 :=
            if filename0 = "" then "image_" ++ toString now ++ ".jpg"
            else filename0
          let fname := resolveConflictName (st.files.map (·.1)) images_dir
            (splitext filename1).1 (splitext filename1).2
          let final_path := images_dir ++ "/" ++ fname
          if writeOk then
            (some
              { filename := fname, original_url := image_url,
                local_path := final_path, file_size := content.length,
                downloaded_at := now, source_page := info.source_page,
                page_title := info.page_title, alt_text := info.alt,
                description := description,
                cleaned_description := cleaned_description,
                category := final_category, crawl_run := info.crawl_run,
                score := info.score },
              { files := st.files ++ [(final_path, content)], dirs := dirs',
                downloaded_urls := image_url :: st.downloaded_urls })
          else (none, { st with dirs := dirs' })
        else (none, st)

/-- `load_metadata` from `src/utils/helpers.py`: existence check, read
and `json.loads` are oracles; every failure is caught and yields `[]`. -/
def load_metadata {α : Type} (fileExists : Bool) (readResult : Option String)
    (jsonParse : String → Option (List α)) : List α :=
  if fileExists then
    match readResult with
    | none => []
    | some content =>
      match jsonParse content with
      | none => []
      | some items => items
  else []

/-- `get_downloaded_urls_from_metadata` from `src/utils/helpers.py` (a
Python set, modelled as a deduplicated list). -/
def get_downloaded_urls_from_metadata (metadata : List ImageRecord) :
    List String := (metadata.map (·.original_url)).dedup

/-! ## The lightbox download path (`src/crawler.py`)

`_download_image_from_lightbox` downloads without a duplicate check; the
call site in `crawl_page_thoroughly` (lines 424–443) guards it with
`fullres_src not in self.downloaded_urls` and, on success, appends the
record and adds the URL to the duplicate set. -/

/-- `_extract_category_from_url` from `src/crawler.py`: only `ng`,
decoded and stripped. -/
def crawler_extract_category_from_url (url : String) : Option String :=
  (getQueryParam url "ng").map (fun v => pyStrip (unquote_plus v))

structure LightboxRecord where
  filename : String
  original_url : String
  local_path : String
  file_size : Nat
  downloaded_at : Nat
  source_page : String
  page_title : String
  alt_text : String
  title : String
  painting_type : String
  dimensions : String
  category : String
  crawl_run : String
deriving DecidableEq

structure CrawlerState where
  files : List (String × List Nat)
  dirs : List String
  downloaded_urls : List String
  downloaded_images : List LightboxRecord
  categories_found : List String
deriving DecidableEq

/-- `_download_image_from_lightbox` from `src/crawler.py`. -/
def download_image_from_lightbox (image_url title painting_type dimensions
    alt source_page page_title run_dir base_images_dir : String)
    (files : List (String × List Nat)) (dirs : List String)
    (net : Option (Nat × List Nat)) (writeOk : Bool) (now : Nat) :
    Option LightboxRecord × List (String × List Nat) × List String :=
  match net with
  | none => (none, files, dirs)
  | some (status, content) =>
    if status = 200 then
      let final_category :=
        match crawler_extract_category_from_url source_page with
        | some c => if c ≠ "" then c else "miscellaneous"
        | none => "miscellaneous"
      let images_dir := base_images_dir ++ "/" ++
        clean_description_for_folder final_category
      let dirs' := if images_dir ∈ dirs then dirs else images_dir :: dirs
      let filename0 := String.mk (basenameList (urlPath image_url).data)
      let filename1 :=
        if filename0 = "" then "image_" ++ toString now ++ ".jpg"
        else filename0
      let fname := resolveConflictName (files.map (·.1)) images_dir
        (splitext filename1).1 (splitext filename1).2
      let final_path := images_dir ++ "/" ++ fname
      if writeOk then
        (some
          { filename := fname, original_url := image_url,
            local_path := final_path, file_size := content.length,
            downloaded_at := now, source_page := source_page,
            page_title := clean_text_field page_title,
            alt_text := clean_text_field alt,
            title := clean_text_field title,
            painting_type := clean_text_field painting_type,
            dimensions := clean_text_field dimensions,
            category := final_category, crawl_run := run_dir },
          files ++ [(final_path, content)], dirs')
      else (none, files, dirs')
    else (none, files, dirs)

/-- The per-image step of `crawl_page_thoroughly` (`src/crawler.py`
lines 424–443): duplicate check, download, then record append, duplicate
marking and category tracking. -/
def processLightboxImage (fullres_src title painting_type dimensions alt
    url page_title run_dir base_images_dir : String) (st : CrawlerState)
    (net : Option (Nat × List Nat)) (writeOk : Bool) (now : Nat) :
    CrawlerState :=
  if fullres_src ∉ st.downloaded_urls then
    match download_image_from_lightbox fullres_src title painting_type
      dimensions alt url page_title run_dir base_images_dir st.files st.dirs
      net writeOk now with
    | (some md, files', dirs') =>
      { files := files', dirs := dirs',
        downloaded_urls := fullres_src :: st.downloaded_urls,
        downloaded_images := st.downloaded_images ++ [md],
        categories_found :=
          if md.category ∈ st.categories_found then st.categories_found
          else md.category :: st.categories_found }
    | (none, files', dirs') => { st with files := files', dirs := dirs' }
  else st

/-- The dedup invariant of the record collection: `original_url` is
unique across records and every recorded URL is in the duplicate set. -/
def recordsUnique (st : CrawlerState) : Prop :=
  (st.downloaded_images.map (·.original_url)).Nodup ∧
    ∀ r ∈ st.downloaded_images, r.original_url ∈ st.downloaded_urls

/-! ## The pagination discoverer

`_get_pagination_urls` (`src/advanced_crawler.py` lines 124–159) filters
the page's links: same extracted category id as the current page, and a
pagination shape (numeric text, a pagination keyword in the text, a
category URL pattern, or `page=` in the lowercased URL).
`crawl_page_thoroughly` (`src/crawler.py` lines 490–512) has its own
inline variant over the `a[href*="num="]` anchors with purely numeric
text. -/

structure LinkInfo where
  href : String
  text : String
deriving DecidableEq

/-- `_extract_category_from_url` from `src/advanced_crawler.py`: the
first value of `ng`, else of `galerie`. -/
def adv_extract_category_from_url (url : String) : Option String :=
  match getQueryParam url "ng" with
  | some v => some v
  | none => getQueryParam url "galerie"

/-- The absolute form of a candidate link's URL as
`_get_pagination_urls` computes it. -/
def advLinkUrl (url href : String) : String :=
  if strStartsWith href "/" then urljoin url href else href

/-- `_get_pagination_urls` from `src/advanced_crawler.py`. -/
def adv_get_pagination_urls (url : String) (links : List LinkInfo) :
    List String :=
  match adv_extract_category_from_url url with
  | none => []
  | some current_category =>
    links.filterMap fun link =>
      if link.href = "" then none
      else
        let link_url := advLinkUrl url link.href
        if adv_extract_category_from_url link_url = some current_category then
          let link_text := pyStrip link.text
          if pyIsDigitStr link_text ||
              PAGINATION_KEYWORDS.any (fun kw => pyContains link_text kw) ||
              CATEGORY_URL_PATTERNS.any (fun pat => pyContains link_url pat) ||
              pyContains (pyLower link_url) "page=" then some link_url
          else none
        else none

/-- The absolute form of an anchor's URL as `crawl_page_thoroughly`
computes it. -/
def crawlerLinkUrl (url href : String) : String :=
  if strStartsWith href "/" then urljoin url href
  else if strStartsWith href "http" then href
  else urljoin url href

/-- The pagination filter of `crawl_page_thoroughly` (`src/crawler.py`
lines 490–512): anchors matching `a[href*="num="]`, numeric text, same
extracted category. -/
def crawler_pagination_links (url : String) (anchors : List LinkInfo) :
    List String :=
  (anchors.filter (fun a => pyContains a.href "num=")).filterMap fun link =>
    if link.href ≠ "" ∧ pyIsDigitStr (pyStrip link.text) then
      let abs_href := crawlerLinkUrl url link.href
      if crawler_extract_category_from_url abs_href =
          crawler_extract_category_from_url url then some abs_href
      else none
    else none

/-- The spec's "recognized pagination query-parameter convention": the
URL carries one of the category parameters `ng` / `galerie` (also as the
literal patterns of `CATEGORY_URL_PATTERNS`) or a `page=` parameter. -/
def matchesPaginationConvention (u : String) : Bool :=
  (getQueryParam u "ng").isSome || (getQueryParam u "galerie").isSome ||
    CATEGORY_URL_PATTERNS.any (fun pat => pyContains u pat) ||
    pyContains (pyLower u) "page="

/-! ## `crawl_category_completely` (`src/crawler.py` lines 526–571,
`src/advanced_crawler.py` lines 412–457; both are the same loop)

State: a FIFO queue (seeded with the category URL) and the
visited-in-category set.  Each iteration pops the front; an
already-visited URL is discarded; otherwise the URL is marked visited,
the page is crawled (`pages u` is the oracle for the pagination links the
page crawler returns for `u`), and the links not yet visited are
appended.  The loop is written with a fuel parameter (`none` = fuel
exhausted); termination is the theorem that some fuel returns `some`.
The returned list is the order in which URLs were passed to the page
crawler. -/

def crawl_category_completely (pages : String → List String) :
    Nat → List String → List String → Option (List String)
  | 0, _, _ => none
  | _ + 1, [], _ => some []
  | fuel + 1, u :: q, visited =>
    if u ∈ visited then crawl_category_completely pages fuel q visited
    else
      let newQueue := q ++ (pages u).filter (fun v => v ∉ u :: visited)
      match crawl_category_completely pages fuel newQueue (u :: visited) with
      | none => none
      | some ps => some (u :: ps)

/-- The termination measure: queue length plus, for every not yet
visited URL of the finite universe `U`, a budget covering its processing
and its enqueued links. -/
def crawlMeasure (pages : String → List String) (U : Finset String)
    (q visited : List String) : Nat :=
  q.length + ∑ u ∈ U.filter (fun u => u ∉ visited), (2 + (pages u).length)

/-! ## The batch renamer (`src/rename_files.py`)

`rename_files_in_metadata` walks the loaded metadata items; for each it
computes the new filename (`create_new_filename`) and the cleaned
category, then — only when `dry_run` is false — creates the directory,
resolves `_conflict_N` collisions, moves the file, updates the item's
`filename` / `local_path` / `category` fields, and afterwards rewrites
the metadata file and prunes empty directories.  The filesystem is
modelled as the list of file paths, the list of directories and the
metadata file's content; the in-memory items are returned alongside. -/

def isTitleAllowed (c : Char) : Bool :=
  (97 ≤ c.toNat && c.toNat ≤ 122) || (48 ≤ c.toNat && c.toNat ≤ 57)

/-- `clean_title_for_filename` from `src/rename_files.py`. -/
def clean_title_for_filename (title : String) : String :=
  if title = "" then "untitled"
  else
    let cleaned := title.data.map pyLowerChar
    let cleaned := cleaned.flatMap latinFoldChar
    let cleaned := cleaned.map (fun c => if isTitleAllowed c then c else '_')
    let cleaned := collapseRuns (fun c => c = '_') '_' cleaned
    let cleaned := pyStripCharList '_' cleaned
    let cleaned := cleaned.take 50
    if cleaned = [] then "untitled" else String.mk cleaned

/-- `create_new_filename` from `src/rename_files.py`. -/
def create_new_filename (title current_filename : String) : String :=
  let ext := (splitext current_filename).2
  clean_title_for_filename title ++ "_" ++
    extract_last_three_digits current_filename ++
    (if ext = "" then ".jpg" else ext)

/-- `os.path.dirname`. -/
def dirnameStr (p : String) : String :=
  String.mk ((p.data.reverse.dropWhile (· ≠ '/')).reverse.dropLast)

/-- The category-segment replacement in the destination path: find the
`images` component, replace the next component by the new category, and
keep everything but the filename (`os.sep.join(path_parts[:-1])`);
missing `images` or a trailing `images` falls back to the current
directory. -/
def computeNewDir (current_path current_dir new_category : String) :
    String :=
  let parts := (splitOnChar '/' current_path.data).map String.mk
  match parts.indexOf? "images" with
  | none => current_dir
  | some i =>
    if i + 1 < parts.length then
      String.mk (List.intercalate ['/']
        ((parts.set (i + 1) new_category).dropLast.map String.data))
    else current_dir

/-- The `_conflict_N` destination-collision loop (`while
os.path.exists(final_new_path) and final_new_path != current_path`); as
with the download-time loop, every candidate embeds a distinct counter,
so erasing each hit preserves the semantics while bounding the scan. -/
def renameConflictGo (new_dir base ext current_path : String) :
    Nat → List String → Nat → String
  | 0, _, k =>
    new_dir ++ "/" ++
      (if k = 0 then base ++ ext else base ++ "_conflict_" ++ toString k ++ ext)
  | n + 1, fs, k =>
    let path := new_dir ++ "/" ++
      (if k = 0 then base ++ ext else base ++ "_conflict_" ++ toString k ++ ext)
    if path ∈ fs ∧ path ≠ current_path then
      renameConflictGo new_dir base ext current_path n (fs.erase path) (k + 1)
    else path

structure RenameItem where
  filename : String
  local_path : String
  title : String
  category : String
deriving DecidableEq

structure RenameFs where
  files : List String
  dirs : List String
  meta : List RenameItem
deriving DecidableEq

structure RenameLoopState where
  items : List RenameItem
  files : List String
  dirs : List String
  renamed : Nat
  errors : Nat
  categories_updated : List (String × String)
deriving DecidableEq

/-- `categories_updated[category] = new_category` (a Python dict,
modelled as an association list updated in place). -/
def updateAssoc (l : List (String × String)) (k v : String) :
    List (String × String) :=
  if l.any (fun e => e.1 == k) then
    l.map (fun e => if e.1 == k then (k, v) else e)
  else l ++ [(k, v)]

/-- One iteration of the item loop of `rename_files_in_metadata`. -/
def renameStep (dry_run : Bool) (s : RenameLoopState) (item : RenameItem) :
    RenameLoopState :=
  if item.filename = "" ∨ item.local_path = "" ∨ item.local_path ∉ s.files
  then { s with items := s.items ++ [item], errors := s.errors + 1 }
  else
    let new_filename := create_new_filename item.title item.filename
    let new_category := clean_category item.category
    let cats :=
      if item.category ≠ new_category then
        updateAssoc s.categories_updated item.category new_category
      else s.categories_updated
    let current_dir := dirnameStr item.local_path
    let new_dir :=
      if item.category ≠ new_category then
        computeNewDir item.local_path current_dir new_category
      else current_dir
    if item.filename = new_filename ∧ item.category = new_category then
      { s with items := s.items ++ [item], categories_updated := cats }
    else if dry_run then
      { s with items := s.items ++ [item], categories_updated := cats }
    else
      let dirs' := if new_dir ∈ s.dirs then s.dirs else new_dir :: s.dirs
      let final_new_path := renameConflictGo new_dir
        (splitext new_filename).1 (splitext new_filename).2 item.local_path
        (s.files.length + 1) s.files 0
      let files' :=
        if final_new_path ≠ item.local_path then
          s.files.erase item.local_path ++ [final_new_path]
        else s.files
      let item' := { item with
        filename := String.mk (basenameList final_new_path.data),
        local_path := final_new_path, category := new_category }
      { items := s.items ++ [item'], files := files', dirs := dirs',
        renamed := s.renamed + 1, errors := s.errors,
        categories_updated := cats }

structure RenameStats where
  processed : Nat
  renamed : Nat
  errors : Nat
  categories_updated : Nat
deriving DecidableEq

/-- The post-pass cleanup of empty category directories (`os.walk`
bottom-up with `os.rmdir` on empty directories): a directory survives iff
some file lies beneath it. -/
def pruneEmptyDirs (dirs files : List String) : List String :=
  dirs.filter (fun d => files.any (fun f => strStartsWith f (d ++ "/")))

/-- `rename_files_in_metadata` from `src/rename_files.py`.  Returns the
stats, the filesystem (files, directories, metadata file) and the
in-memory item list. -/
def rename_files_in_metadata (fs : RenameFs) (dry_run : Bool) :
    RenameStats × RenameFs × List RenameItem :=
  if fs.meta = [] then (⟨0, 0, 0, 0⟩, fs, fs.meta)
  else
    let final := fs.meta.foldl (renameStep dry_run)
      ⟨[], fs.files, fs.dirs, 0, 0, []⟩
    let meta' := if ¬dry_run ∧ 0 < final.renamed then final.items else fs.meta
    let dirs' := if ¬dry_run then pruneEmptyDirs final.dirs final.files
      else final.dirs
    (⟨fs.meta.length, final.renamed, final.errors,
        final.categories_updated.length⟩,
      { files := final.files, dirs := dirs', meta := meta' }, final.items)

/-! ## Lemmas and claim theorems -/

/-- C7: `extract_last_three_digits` agrees with the spec's
concatenate-digits / take-final-three / left-zero-pad rule on every
filename, and in particular maps `"photo001.jpg"` to `"001"`,
`"img.jpg"` to `"000"` and `"a1b2.png"` to `"012"`. -/
theorem extract_last_three_digits_spec :
    (∀ filename : String,
      extract_last_three_digits filename = lastThreeDigitsSpec filename) ∧
    extract_last_three_digits "photo001.jpg" = "001" ∧
    extract_last_three_digits "img.jpg" = "000" ∧
    extract_last_three_digits "a1b2.png" = "012" := by
  refine ⟨fun filename => ?_, by decide, by decide, by decide⟩
  unfold extract_last_three_digits lastThreeDigitsSpec
  set digits := (splitext filename).1.data.filter Char.isDigit with hd
  rcases Nat.lt_or_ge digits.length 3 with h3 | h3
  · have hdrop : digits.drop (digits.length - 3) = digits := by
      have : digits.length - 3 = 0 := Nat.sub_eq_zero_of_le (Nat.le_of_lt h3)
      simp [this]
    rcases Nat.eq_zero_or_pos digits.length with h0 | h0
    · have : digits = [] := List.eq_nil_of_length_eq_zero h0
      simp [this, h0]
    · have hne3 : ¬ digits.length ≥ 3 := Nat.not_le_of_lt h3
      simp [hne3, h0, hdrop]
  · have : List.replicate (3 - digits.length) '0' = ([] : List Char) := by
      simp [Nat.sub_eq_zero_of_le h3]
    simp [h3, this]

/-! ## Generic lemmas about `collapseRuns` and stripping -/

theorem collapseRunsAux_eq_self {p : Char → Bool} {rep : Char} {l : List Char}
    (h : ∀ c ∈ l, p c = false) : ∀ b, collapseRunsAux p rep b l = l := by
  induction l with
  | nil => intro b; rfl
  | cons c cs ih =>
    intro b
    have hc : p c = false := h c (List.mem_cons_self _ _)
    simp only [collapseRunsAux, hc, Bool.false_eq_true, if_false]
    exact congrArg (c :: ·) (ih (fun x hx => h x (List.mem_cons_of_mem _ hx)) false)

theorem mem_collapseRunsAux {p : Char → Bool} {rep : Char} {l : List Char}
    {x : Char} : ∀ b, x ∈ collapseRunsAux p rep b l → x = rep ∨ x ∈ l := by
  induction l with
  | nil => intro b hx; cases hx
  | cons c cs ih =>
    intro b hx
    simp only [collapseRunsAux] at hx
    by_cases hc : p c = true
    · simp only [hc, if_true, List.mem_append] at hx
      rcases hx with hx | hx
      · cases b with
        | true => cases hx
        | false => simp at hx; exact Or.inl hx
      · rcases ih true hx with rfl | hx
        · exact Or.inl rfl
        · exact Or.inr (List.mem_cons_of_mem _ hx)
    · simp only [hc, if_false] at hx
      rcases List.mem_cons.mp hx with rfl | hx
      · exact Or.inr (List.mem_cons_self _ _)
      · rcases ih false hx with rfl | hx
        · exact Or.inl rfl
        · exact Or.inr (List.mem_cons_of_mem _ hx)

/-- The head of the continuation of a run never satisfies `p`. -/
theorem head_collapseRunsAux_true {p : Char → Bool} {rep : Char} :
    ∀ l : List Char, ∀ x ∈ (collapseRunsAux p rep true l).head?, p x = false := by
  intro l
  induction l with
  | nil => intro x hx; cases hx
  | cons c cs ih =>
    intro x hx
    by_cases hc : p c = true
    · simp only [collapseRunsAux, hc, if_true, List.nil_append] at hx
      exact ih x hx
    · have hc' : p c = false := by simpa using hc
      simp only [collapseRunsAux, hc', Bool.false_eq_true, if_false,
        List.head?_cons, Option.mem_def, Option.some.injEq] at hx
      subst hx; exact hc'

/-- In the output of `collapseRunsAux` two adjacent characters never both
satisfy `p`. -/
theorem chain'_collapseRunsAux {p : Char → Bool} {rep : Char} :
    ∀ l : List Char, ∀ b,
      List.Chain' (fun a b => p a = false ∨ p b = false)
        (collapseRunsAux p rep b l) := by
  intro l
  induction l with
  | nil => intro b; cases b <;> exact List.chain'_nil
  | cons c cs ih =>
    intro b
    by_cases hc : p c = true
    · simp only [collapseRunsAux, hc, if_true]
      cases b with
      | true => simpa using ih true
      | false =>
        simp only [Bool.false_eq_true, if_false, List.singleton_append]
        refine List.chain'_cons'.mpr ⟨?_, ih true⟩
        intro y hy
        exact Or.inr (head_collapseRunsAux_true cs y hy)
    · have hc' : p c = false := by simpa using hc
      simp only [collapseRunsAux, hc', Bool.false_eq_true, if_false]
      refine List.chain'_cons'.mpr ⟨fun y _ => Or.inl hc', ih false⟩

theorem collapseRunsAux_eq_self_of_chain' {p : Char → Bool} {rep : Char} :
    ∀ l : List Char,
      (∀ c ∈ l, p c = true → c = rep) →
      List.Chain' (fun a b => p a = false ∨ p b = false) l →
      collapseRunsAux p rep false l = l ∧
        ((∀ x ∈ l.head?, p x = false) → collapseRunsAux p rep true l = l) := by
  intro l
  induction l with
  | nil => exact fun _ _ => ⟨rfl, fun _ => rfl⟩
  | cons c cs ih =>
    intro hrep hch
    have hrep' : ∀ c ∈ cs, p c = true → c = rep :=
      fun x hx => hrep x (List.mem_cons_of_mem _ hx)
    have hch' : List.Chain' _ cs := (List.chain'_cons'.mp hch).2
    have ihcs := ih hrep' hch'
    constructor
    · by_cases hc : p c = true
      · have hcrep : c = rep := hrep c (List.mem_cons_self _ _) hc
        have hhead : ∀ x ∈ cs.head?, p x = false := by
          intro x hx
          rcases (List.chain'_cons'.mp hch).1 x hx with h | h
          · exact absurd hc (by simp [h])
          · exact h
        simp only [collapseRunsAux, hc, if_true, Bool.false_eq_true,
          if_false, List.singleton_append]
        rw [ihcs.2 hhead, hcrep]
      · have hc' : p c = false := by simpa using hc
        simp only [collapseRunsAux, hc', Bool.false_eq_true, if_false]
        rw [ihcs.1]
    · intro hhead
      have hc' : p c = false := hhead c rfl
      simp only [collapseRunsAux, hc', Bool.false_eq_true, if_false]
      rw [ihcs.1]

theorem collapseRuns_eq_self_of_chain' {p : Char → Bool} {rep : Char}
    {l : List Char} (hrep : ∀ c ∈ l, p c = true → c = rep)
    (hch : List.Chain' (fun a b => p a = false ∨ p b = false) l) :
    collapseRuns p rep l = l :=
  (collapseRunsAux_eq_self_of_chain' l hrep hch).1

theorem head_dropWhile_false (p : Char → Bool) (l : List Char) :
    ∀ x ∈ (l.dropWhile p).head?, p x = false := by
  cases h : l.dropWhile p with
  | nil => intro x hx; cases hx
  | cons a as =>
    intro x hx
    simp only [List.head?_cons, Option.mem_def, Option.some.injEq] at hx
    subst hx
    have := List.dropWhile_get_zero_not p l (by simp [h])
    simpa [h] using this

theorem dropWhile_idem (p : Char → Bool) (l : List Char) :
    (l.dropWhile p).dropWhile p = l.dropWhile p := by
  cases h : l.dropWhile p with
  | nil => rfl
  | cons a as =>
    have ha : p a = false := head_dropWhile_false p l a (by rw [h]; rfl)
    rw [List.dropWhile_cons_of_neg (by simp [ha])]

theorem pyStripCharList_segment (c : Char) (l : List Char) :
    ∃ t u, t ++ pyStripCharList c l ++ u = l := by
  obtain ⟨t, ht⟩ := List.dropWhile_suffix (l := l) (p := (· = c))
  obtain ⟨s, hs⟩ :=
    List.dropWhile_suffix (l := (l.dropWhile (· = c)).reverse) (p := (· = c))
  refine ⟨t, s.reverse, ?_⟩
  have : l.dropWhile (· = c) = pyStripCharList c l ++ s.reverse := by
    have := congrArg List.reverse hs
    simpa [pyStripCharList] using this.symm
  rw [List.append_assoc, ← this, ht]

/-- Restriction of a `Chain'` property to a contiguous segment. -/
theorem chain'_of_segment {R : Char → Char → Prop} {l₁ l₂ t u : List Char}
    (hseg : t ++ l₁ ++ u = l₂) (h : List.Chain' R l₂) : List.Chain' R l₁ := by
  subst hseg
  rw [List.append_assoc] at h
  exact (List.chain'_append.mp ((List.chain'_append.mp h).2.1)).1

theorem mem_pyStripCharList {c x : Char} {l : List Char}
    (hx : x ∈ pyStripCharList c l) : x ∈ l := by
  obtain ⟨t, u, hseg⟩ := pyStripCharList_segment c l
  rw [← hseg]
  simp [hx]

theorem pyStripCharList_idem (c : Char) (l : List Char) :
    pyStripCharList c (pyStripCharList c l) = pyStripCharList c l := by
  unfold pyStripCharList
  set q : Char → Bool := fun x => x = c with hq
  set y1 := l.dropWhile q with hy1
  set z := y1.reverse.dropWhile q with hz
  have hdz : z.reverse.dropWhile q = z.reverse := by
    cases hzr : z.reverse with
    | nil => rfl
    | cons a as =>
      have ha : q a = false := by
        have hmem : a ∈ z.getLast? := by
          rw [← List.head?_reverse, hzr]; rfl
        have hzne : z ≠ [] := by
          intro h; rw [h] at hzr; simp at hzr
        obtain ⟨t, ht⟩ := List.dropWhile_suffix (l := y1.reverse) (p := q)
        have : z.getLast? = y1.reverse.getLast? := by
          rw [← ht]; exact (List.getLast?_append_of_ne_nil _ hzne).symm
        rw [this, List.getLast?_reverse] at hmem
        exact head_dropWhile_false q l a (by rw [← hy1]; exact hmem)
      rw [List.dropWhile_cons_of_neg (by simp [ha])]
  rw [hdz, List.reverse_reverse, dropWhile_idem]

theorem isCatAllowed_facts {c : Char} (h : isCatAllowed c = true) :
    pyLowerChar c = c ∧ latinFoldChar c = [c] ∧ isCatSepChar c = false ∧
      (isHyphen c = true → c = '-') := by
  have hval : ((97 ≤ c.toNat ∧ c.toNat ≤ 122) ∨ (48 ≤ c.toNat ∧ c.toNat ≤ 57)) ∨
      c.toNat = 45 := by
    simpa [isCatAllowed, Bool.or_eq_true, Bool.and_eq_true,
      decide_eq_true_eq] using h
  refine ⟨?_, ?_, ?_, fun hh => by simpa [isHyphen] using hh⟩
  · unfold pyLowerChar
    rw [if_neg (by omega), if_neg (by omega)]
  · have hn : latinFoldTable.find? (fun e => e.1 == c) = none := by
      apply List.find?_eq_none.mpr
      intro x hx
      fin_cases hx <;>
        · simp only [beq_iff_eq]
          rintro rfl
          exact absurd hval (by decide)
    simp [latinFoldChar, hn]
  · by_contra hsep
    have hs : isCatSepChar c = true := by simpa using hsep
    simp only [isCatSepChar, pyIsSpace, Bool.or_eq_true, decide_eq_true_eq,
      or_assoc] at hs
    rcases hs with rfl | rfl | rfl | rfl | rfl | rfl | rfl | rfl <;>
      exact absurd hval (by decide)

theorem map_eq_self_of_mem {f : Char → Char} :
    ∀ l : List Char, (∀ x ∈ l, f x = x) → l.map f = l := by
  intro l
  induction l with
  | nil => intro _; rfl
  | cons c cs ih =>
    intro h
    rw [List.map_cons, h c (List.mem_cons_self _ _),
      ih fun x hx => h x (List.mem_cons_of_mem _ hx)]

theorem flatMap_eq_self_of_mem {f : Char → List Char} :
    ∀ l : List Char, (∀ x ∈ l, f x = [x]) → l.flatMap f = l := by
  intro l
  induction l with
  | nil => intro _; rfl
  | cons c cs ih =>
    intro h
    rw [List.flatMap_cons, h c (List.mem_cons_self _ _),
      List.singleton_append,
      ih fun x hx => h x (List.mem_cons_of_mem _ hx)]

theorem mem_cleanCategoryList {l : List Char} {x : Char}
    (hx : x ∈ cleanCategoryList l) : isCatAllowed x = true := by
  unfold cleanCategoryList at hx
  have hx1 := mem_pyStripCharList hx
  rcases mem_collapseRunsAux false hx1 with rfl | hx2
  · rfl
  · exact (List.mem_filter.mp hx2).2

theorem chain'_cleanCategoryList (l : List Char) :
    List.Chain' (fun a b => isHyphen a = false ∨ isHyphen b = false)
      (cleanCategoryList l) := by
  unfold cleanCategoryList
  obtain ⟨t, u, hseg⟩ := pyStripCharList_segment '-'
    (collapseRuns isHyphen '-'
      ((collapseRuns isCatSepChar '-'
        ((l.map pyLowerChar).flatMap latinFoldChar)).filter isCatAllowed))
  exact chain'_of_segment hseg (chain'_collapseRunsAux _ false)

theorem cleanCategoryList_idem (l : List Char) :
    cleanCategoryList (cleanCategoryList l) = cleanCategoryList l := by
  have hall : ∀ x ∈ cleanCategoryList l, isCatAllowed x = true :=
    fun x hx => mem_cleanCategoryList hx
  have hmap : (cleanCategoryList l).map pyLowerChar = cleanCategoryList l :=
    map_eq_self_of_mem _ fun x hx => (isCatAllowed_facts (hall x hx)).1
  have hflat : (cleanCategoryList l).flatMap latinFoldChar =
      cleanCategoryList l :=
    flatMap_eq_self_of_mem _ fun x hx => (isCatAllowed_facts (hall x hx)).2.1
  have hsep : collapseRuns isCatSepChar '-' (cleanCategoryList l) =
      cleanCategoryList l :=
    collapseRunsAux_eq_self
      (fun x hx => (isCatAllowed_facts (hall x hx)).2.2.1) false
  have hfilter : (cleanCategoryList l).filter isCatAllowed =
      cleanCategoryList l := List.filter_eq_self.mpr hall
  have hcoll : collapseRuns isHyphen '-' (cleanCategoryList l) =
      cleanCategoryList l :=
    collapseRuns_eq_self_of_chain'
      (fun x hx => (isCatAllowed_facts (hall x hx)).2.2.2)
      (chain'_cleanCategoryList l)
  have hstrip : pyStripCharList '-' (cleanCategoryList l) =
      cleanCategoryList l := by
    show pyStripCharList '-'
        (pyStripCharList '-'
          (collapseRuns isHyphen '-'
            ((collapseRuns isCatSepChar '-'
              ((l.map pyLowerChar).flatMap latinFoldChar)).filter
                isCatAllowed))) = _
    rw [pyStripCharList_idem]
    rfl
  show cleanCategoryList (cleanCategoryList l) = cleanCategoryList l
  simp only [cleanCategoryList] at hmap hflat hsep hfilter hcoll hstrip ⊢
  rw [hmap, hflat, hsep, hfilter, hcoll, hstrip]

/-- C9: `clean_category` (the spec's `slugify_category`) is idempotent:
cleaning an already-cleaned category name returns it unchanged. -/
theorem clean_category_idempotent (x : String) :
    clean_category (clean_category x) = clean_category x := by
  have hmisc : clean_category "miscellaneous" = "miscellaneous" := by decide
  by_cases hx : x = ""
  · subst hx
    rw [show clean_category "" = "miscellaneous" from rfl]
    exact hmisc
  · by_cases hnil : cleanCategoryList x.data = []
    · have h1 : clean_category x = "miscellaneous" := by
        simp only [clean_category, if_neg hx, hnil, eq_self_iff_true, if_true]
      rw [h1]
      exact hmisc
    · have h1 : clean_category x = String.mk (cleanCategoryList x.data) := by
        simp only [clean_category, if_neg hx, if_neg hnil]
      rw [h1]
      have hne : String.mk (cleanCategoryList x.data) ≠ "" := by
        intro h
        exact hnil (by simpa using congrArg String.data h)
      have h2 : cleanCategoryList (String.mk (cleanCategoryList x.data)).data
          = cleanCategoryList x.data := cleanCategoryList_idem x.data
      simp only [clean_category, if_neg hne, h2, if_neg hnil]

/-- C6 counterexample: on the caption line `"40 x5 0 cm"` the pipeline
produces `"40 x50 cm"`, which differs from the `"40x50cm"` stated by the
spec. -/
theorem caption_dimensions_forty_not_spec :
    caption_dimensions "40 x5 0 cm" = "40 x50 cm" ∧
      ("40 x50 cm" : String) ≠ "40x50cm" := by
  constructor
  · rfl
  · decide

/-- C6 (amended): for the caption secondary line `"40 x5 0 cm"` the
pipeline produces the dimensions field `"40 x50 cm"`: the digits split by
the spacing defect are rejoined, while the space before `x` and the space
before `cm` are kept. -/
theorem caption_dimensions_forty :
    caption_dimensions "40 x5 0 cm" = "40 x50 cm" := by
  rfl

/-! ## Behaviour of `download_image` -/

theorem download_image_dup {info : ImageInfo} {base_url : String}
    {st : DlState} (net : Option (Nat × List Nat)) (writeOk : Bool)
    (now : Nat) (dir : Option String)
    (h : absolutize_image_url base_url info.src ∈ st.downloaded_urls) :
    download_image info base_url st net writeOk now dir = (none, st) := by
  unfold download_image
  by_cases hsrc : info.src = ""
  · simp [hsrc]
  · simp [hsrc, h]

theorem download_image_netfail (info : ImageInfo) (base_url : String)
    (st : DlState) (writeOk : Bool) (now : Nat) (dir : Option String) :
    download_image info base_url st none writeOk now dir = (none, st) := by
  unfold download_image
  by_cases hsrc : info.src = ""
  · simp [hsrc]
  · by_cases hdup : absolutize_image_url base_url info.src ∈ st.downloaded_urls
    · simp [hsrc, hdup]
    · simp [hsrc, hdup]

theorem download_image_badstatus (info : ImageInfo) (base_url : String)
    (st : DlState) {status : Nat} (content : List Nat) (writeOk : Bool)
    (now : Nat) (dir : Option String) (h : status ≠ 200) :
    download_image info base_url st (some (status, content)) writeOk now dir =
      (none, st) := by
  unfold download_image
  by_cases hsrc : info.src = ""
  · simp [hsrc]
  · by_cases hdup : absolutize_image_url base_url info.src ∈ st.downloaded_urls
    · simp [hsrc, hdup]
    · simp [hsrc, hdup, h]

theorem download_image_writefail (info : ImageInfo) (base_url : String)
    (st : DlState) (net : Option (Nat × List Nat)) (now : Nat)
    (dir : Option String) :
    (download_image info base_url st net false now dir).1 = none ∧
    (download_image info base_url st net false now dir).2.downloaded_urls =
      st.downloaded_urls ∧
    (download_image info base_url st net false now dir).2.files = st.files := by
  unfold download_image
  by_cases hsrc : info.src = ""
  · simp [hsrc]
  · by_cases hdup : absolutize_image_url base_url info.src ∈ st.downloaded_urls
    · simp [hsrc, hdup]
    · rcases net with _ | ⟨status, content⟩
      · simp [hsrc, hdup]
      · by_cases hstat : status = 200
        · subst hstat; simp [hsrc, hdup]
        · simp [hsrc, hdup, hstat]

theorem download_image_accepts (info : ImageInfo) (base_url : String)
    (st : DlState) (content : List Nat) (now : Nat) (dir : Option String)
    (h1 : strStartsWith info.src "http" = true)
    (h2 : strStartsWith info.src "/" = false)
    (h3 : info.src ∉ st.downloaded_urls) :
    (download_image info base_url st (some (200, content)) true now
        dir).1.isSome = true ∧
    (download_image info base_url st (some (200, content)) true now
        dir).2.downloaded_urls = info.src :: st.downloaded_urls := by
  have habs : absolutize_image_url base_url info.src = info.src := by
    unfold absolutize_image_url
    simp [h1, h2]
  have hsrc : info.src ≠ "" := by
    intro h
    rw [h] at h1
    exact absurd h1 (by decide)
  unfold download_image
  simp [hsrc, habs, h3]

theorem download_image_mark_means_write (info : ImageInfo)
    (base_url : String) (st : DlState) (net : Option (Nat × List Nat))
    (writeOk : Bool) (now : Nat) (dir : Option String)
    (h : (download_image info base_url st net writeOk now
      dir).2.downloaded_urls ≠ st.downloaded_urls) :
    writeOk = true ∧
    ∃ content path,
      net = some (200, content) ∧
      (download_image info base_url st net writeOk now dir).2.files =
        st.files ++ [(path, content)] ∧
      (download_image info base_url st net writeOk now dir).1.isSome = true := by
  by_cases hsrc : info.src = ""
  · exact absurd (by unfold download_image; simp [hsrc]) h
  · by_cases hdup : absolutize_image_url base_url info.src ∈ st.downloaded_urls
    · exact absurd (by rw [download_image_dup _ _ _ _ hdup]) h
    · rcases net with _ | ⟨status, content⟩
      · exact absurd (by rw [download_image_netfail]) h
      · by_cases hstat : status = 200
        · subst hstat
          cases writeOk with
          | false =>
            exact absurd (download_image_writefail info base_url st
              (some (200, content)) now dir).2.1 h
          | true =>
            refine ⟨rfl, content, ?_⟩
            unfold download_image
            simp [hsrc, hdup]
        · exact absurd
            (by rw [download_image_badstatus _ _ _ _ _ _ _ hstat]) h

/-! ## Behaviour of the lightbox path -/

theorem lightbox_record_url {image_url title painting_type dimensions alt
    source_page page_title run_dir base_images_dir : String}
    {files : List (String × List Nat)} {dirs : List String}
    {net : Option (Nat × List Nat)} {writeOk : Bool} {now : Nat}
    {md : LightboxRecord}
    (h : (download_image_from_lightbox image_url title painting_type
      dimensions alt source_page page_title run_dir base_images_dir files
      dirs net writeOk now).1 = some md) :
    md.original_url = image_url := by
  rcases net with _ | ⟨status, content⟩
  · simp [download_image_from_lightbox] at h
  · by_cases hstat : status = 200
    · subst hstat
      cases writeOk with
      | false => simp [download_image_from_lightbox] at h
      | true =>
        simp only [download_image_from_lightbox, if_pos rfl, if_true,
          Option.some.injEq] at h
        rw [← h]
    · simp [download_image_from_lightbox, hstat] at h

theorem processLightboxImage_dup {fullres_src title painting_type dimensions
    alt url page_title run_dir base_images_dir : String} {st : CrawlerState}
    (net : Option (Nat × List Nat)) (writeOk : Bool) (now : Nat)
    (h : fullres_src ∈ st.downloaded_urls) :
    processLightboxImage fullres_src title painting_type dimensions alt url
      page_title run_dir base_images_dir st net writeOk now = st := by
  unfold processLightboxImage
  simp [h]

theorem processLightboxImage_inv (fullres_src title painting_type dimensions
    alt url page_title run_dir base_images_dir : String) (st : CrawlerState)
    (net : Option (Nat × List Nat)) (writeOk : Bool) (now : Nat)
    (h : recordsUnique st) :
    recordsUnique (processLightboxImage fullres_src title painting_type
      dimensions alt url page_title run_dir base_images_dir st net writeOk
      now) := by
  unfold processLightboxImage
  by_cases hdup : fullres_src ∈ st.downloaded_urls
  · simp only [hdup, not_true_eq_false, if_false]
    exact h
  · simp only [hdup, not_false_eq_true, if_true]
    rcases hdl : download_image_from_lightbox fullres_src title painting_type
      dimensions alt url page_title run_dir base_images_dir st.files st.dirs
      net writeOk now with ⟨mdOpt, files', dirs'⟩
    rcases mdOpt with _ | md
    · exact h
    · have hmd : md.original_url = fullres_src :=
        lightbox_record_url (by rw [hdl])
      constructor
      · simp only [List.map_append, List.map_cons, List.map_nil]
        rw [List.nodup_append]
        refine ⟨h.1, List.nodup_singleton _, ?_⟩
        intro a ha hb
        simp only [List.mem_singleton] at hb
        subst hb
        rw [hmd] at ha
        obtain ⟨r, hr, hru⟩ := List.mem_map.mp ha
        exact hdup (hru ▸ h.2 r hr)
      · intro r hr
        rcases List.mem_append.mp hr with hr | hr
        · exact List.mem_cons_of_mem _ (h.2 r hr)
        · simp only [List.mem_singleton] at hr
          subst hr
          rw [hmd]
          exact List.mem_cons_self _ _

/-- C1: a second download of an already-downloaded URL is a no-op.  For
`download_image` (`src/utils/helpers.py`), a source URL whose absolute
form is in the duplicate set yields no record and an unchanged state (no
file written, no directory created, duplicate set untouched); on the
lightbox path (`src/crawler.py`), a duplicate `fullres_src` leaves the
whole crawler state (records included) unchanged; and the per-image
lightbox step preserves the invariant that `original_url` is unique
across the record collection. -/
theorem download_duplicate_is_noop :
    (∀ (info : ImageInfo) (base_url : String) (st : DlState)
        (net : Option (Nat × List Nat)) (writeOk : Bool) (now : Nat)
        (dir : Option String),
      absolutize_image_url base_url info.src ∈ st.downloaded_urls →
      download_image info base_url st net writeOk now dir = (none, st)) ∧
    (∀ (fullres_src title painting_type dimensions alt url page_title
        run_dir base_images_dir : String) (st : CrawlerState)
        (net : Option (Nat × List Nat)) (writeOk : Bool) (now : Nat),
      fullres_src ∈ st.downloaded_urls →
      processLightboxImage fullres_src title painting_type dimensions alt
        url page_title run_dir base_images_dir st net writeOk now = st) ∧
    (∀ (fullres_src title painting_type dimensions alt url page_title
        run_dir base_images_dir : String) (st : CrawlerState)
        (net : Option (Nat × List Nat)) (writeOk : Bool) (now : Nat),
      recordsUnique st →
      recordsUnique (processLightboxImage fullres_src title painting_type
        dimensions alt url page_title run_dir base_images_dir st net
        writeOk now)) :=
  ⟨fun _ _ _ net writeOk now dir h => download_image_dup net writeOk now dir h,
   fun _ _ _ _ _ _ _ _ _ _ net writeOk now h =>
     processLightboxImage_dup net writeOk now h,
   fun src t pt d a u ptl rd bid st net writeOk now h =>
     processLightboxImage_inv src t pt d a u ptl rd bid st net writeOk now h⟩

/-- C1 witness: with `"https://fabienne-vincent.odexpo.com/images/1/a.jpg"`
already in the duplicate set, both download paths are no-ops on a
concrete state, and the invariant-preservation clause applies to that
state. -/
theorem download_duplicate_is_noop_witness :
    download_image
        ⟨"https://fabienne-vincent.odexpo.com/images/1/a.jpg", "", "", "",
          "", "", 0⟩ BASE_URL
        ⟨[], [], ["https://fabienne-vincent.odexpo.com/images/1/a.jpg"]⟩
        (some (200, [7])) true 0 none =
      (none,
        ⟨[], [], ["https://fabienne-vincent.odexpo.com/images/1/a.jpg"]⟩) ∧
    processLightboxImage "https://fabienne-vincent.odexpo.com/images/1/a.jpg"
        "" "" "" "" "" "" "" ""
        ⟨[], [], ["https://fabienne-vincent.odexpo.com/images/1/a.jpg"], [],
          []⟩ (some (200, [7])) true 0 =
      ⟨[], [], ["https://fabienne-vincent.odexpo.com/images/1/a.jpg"], [],
        []⟩ ∧
    recordsUnique
      (processLightboxImage "x" "" "" "" "" "" "" "" ""
        ⟨[], [], [], [], []⟩ none true 0) := by
  refine ⟨?_, ?_, ?_⟩
  · exact download_duplicate_is_noop.1 _ _ _ _ _ _ _ (by decide)
  · exact download_duplicate_is_noop.2.1 _ _ _ _ _ _ _ _ _ _ _ _ _ (by decide)
  · exact download_duplicate_is_noop.2.2 _ _ _ _ _ _ _ _ _ _ _ _ _
      (by constructor <;> simp)

/-- C2 counterexample: `download_image` performs no allowed-domain check,
no image-extension check and no payload-size check.  For a URL outside
the allowed domain, without a supported image extension, and a payload
one byte larger than `MAX_IMAGE_SIZE`, the function (on HTTP 200)
nevertheless returns a record and adds the URL to the duplicate set —
the claim requires it to return nothing with no side effect. -/
theorem download_image_checks_missing :
    is_allowed_domain "https://evil.example.org/payload.exe" = false ∧
    is_image_url "https://evil.example.org/payload.exe" = false ∧
    MAX_IMAGE_SIZE < (List.replicate (MAX_IMAGE_SIZE + 1) 55).length ∧
    (download_image
        ⟨"https://evil.example.org/payload.exe", "", "", "", "", "", 0⟩
        BASE_URL ⟨[], [], []⟩
        (some (200, List.replicate (MAX_IMAGE_SIZE + 1) 55)) true 0
        none).1.isSome = true ∧
    (download_image
        ⟨"https://evil.example.org/payload.exe", "", "", "", "", "", 0⟩
        BASE_URL ⟨[], [], []⟩
        (some (200, List.replicate (MAX_IMAGE_SIZE + 1) 55)) true 0
        none).2.downloaded_urls ≠ ([] : List String) := by
  have hacc := download_image_accepts
    ⟨"https://evil.example.org/payload.exe", "", "", "", "", "", 0⟩
    BASE_URL ⟨[], [], []⟩ (List.replicate (MAX_IMAGE_SIZE + 1) 55) 0 none
    (by decide) (by decide) (by simp)
  refine ⟨by decide, by decide, by simp, hacc.1, ?_⟩
  rw [hacc.2]
  simp

/-- C2 (amended): `download_image` rejects — returns nothing with the
state unchanged — when the URL is already in the duplicate set, when the
request raises, and when the HTTP status is not 200; but it checks
neither the domain, nor the image extension, nor the payload size: any
URL (not already downloaded) answered with HTTP 200 is written and
marked, whatever its domain, extension or payload length. -/
theorem download_image_reject_conditions :
    (∀ (info : ImageInfo) (base_url : String) (st : DlState)
        (net : Option (Nat × List Nat)) (writeOk : Bool) (now : Nat)
        (dir : Option String),
      absolutize_image_url base_url info.src ∈ st.downloaded_urls →
      download_image info base_url st net writeOk now dir = (none, st)) ∧
    (∀ (info : ImageInfo) (base_url : String) (st : DlState)
        (writeOk : Bool) (now : Nat) (dir : Option String),
      download_image info base_url st none writeOk now dir = (none, st)) ∧
    (∀ (info : ImageInfo) (base_url : String) (st : DlState) (status : Nat)
        (content : List Nat) (writeOk : Bool) (now : Nat)
        (dir : Option String),
      status ≠ 200 →
      download_image info base_url st (some (status, content)) writeOk now
        dir = (none, st)) ∧
    (∀ (info : ImageInfo) (base_url : String) (st : DlState)
        (content : List Nat) (now : Nat) (dir : Option String),
      strStartsWith info.src "http" = true →
      strStartsWith info.src "/" = false →
      info.src ∉ st.downloaded_urls →
      (download_image info base_url st (some (200, content)) true now
        dir).1.isSome = true) :=
  ⟨fun _ _ _ net writeOk now dir h => download_image_dup net writeOk now dir h,
   fun info base_url st writeOk now dir =>
     download_image_netfail info base_url st writeOk now dir,
   fun info base_url st _ content writeOk now dir h =>
     download_image_badstatus info base_url st content writeOk now dir h,
   fun info base_url st content now dir h1 h2 h3 =>
     (download_image_accepts info base_url st content now dir h1 h2 h3).1⟩

/-- C2 witness: the rejection clauses at concrete duplicate /
failed-request / HTTP 404 inputs, and the acceptance clause at a small
concrete off-domain, non-image input. -/
theorem download_image_reject_conditions_witness :
    download_image ⟨"https://h.example/a.jpg", "", "", "", "", "", 0⟩
        BASE_URL ⟨[], [], ["https://h.example/a.jpg"]⟩ (some (200, [1]))
        true 0 none =
      (none, ⟨[], [], ["https://h.example/a.jpg"]⟩) ∧
    download_image ⟨"https://h.example/a.jpg", "", "", "", "", "", 0⟩
        BASE_URL ⟨[], [], []⟩ none true 0 none = (none, ⟨[], [], []⟩) ∧
    download_image ⟨"https://h.example/a.jpg", "", "", "", "", "", 0⟩
        BASE_URL ⟨[], [], []⟩ (some (404, [1])) true 0 none =
      (none, ⟨[], [], []⟩) ∧
    (download_image ⟨"https://evil.example.org/p.txt", "", "", "", "", "", 0⟩
        BASE_URL ⟨[], [], []⟩ (some (200, [1, 2, 3])) true 0
        none).1.isSome = true := by
  refine ⟨?_, ?_, ?_, ?_⟩
  · exact download_image_reject_conditions.1 _ _ _ _ _ _ _ (by decide)
  · exact download_image_reject_conditions.2.1 _ _ _ _ _ _
  · exact download_image_reject_conditions.2.2.1 _ _ _ _ _ _ _ _ (by decide)
  · exact download_image_reject_conditions.2.2.2 _ _ _ _ _ _ (by decide)
      (by decide) (by decide)

/-- C5: write-then-mark ordering of `download_image`.  On any failure —
request exception, non-success status, or an exception during the file
write — the function returns nothing and the duplicate set is unchanged;
and whenever the duplicate set has changed, the write succeeded and the
full payload was appended to the filesystem together with a returned
record. -/
theorem download_image_write_then_mark :
    (∀ (info : ImageInfo) (base_url : String) (st : DlState)
        (net : Option (Nat × List Nat)) (writeOk : Bool) (now : Nat)
        (dir : Option String),
      (net = none ∨ (∃ status content, net = some (status, content) ∧
          status ≠ 200) ∨ writeOk = false) →
      (download_image info base_url st net writeOk now dir).1 = none ∧
      (download_image info base_url st net writeOk now
        dir).2.downloaded_urls = st.downloaded_urls) ∧
    (∀ (info : ImageInfo) (base_url : String) (st : DlState)
        (net : Option (Nat × List Nat)) (writeOk : Bool) (now : Nat)
        (dir : Option String),
      (download_image info base_url st net writeOk now
        dir).2.downloaded_urls ≠ st.downloaded_urls →
      writeOk = true ∧
      ∃ content path,
        net = some (200, content) ∧
        (download_image info base_url st net writeOk now dir).2.files =
          st.files ++ [(path, content)] ∧
        (download_image info base_url st net writeOk now dir).1.isSome =
          true) := by
  constructor
  · intro info base_url st net writeOk now dir h
    rcases h with rfl | ⟨status, content, rfl, hstat⟩ | rfl
    · rw [download_image_netfail]
      exact ⟨rfl, rfl⟩
    · rw [download_image_badstatus _ _ _ _ _ _ _ hstat]
      exact ⟨rfl, rfl⟩
    · exact ⟨(download_image_writefail info base_url st net now dir).1,
        (download_image_writefail info base_url st net now dir).2.1⟩
  · intro info base_url st net writeOk now dir h
    exact download_image_mark_means_write info base_url st net writeOk now
      dir h

/-- C5 witness: the failure clause at a concrete failed write and the
mark-implies-write clause at a concrete successful download. -/
theorem download_image_write_then_mark_witness :
    ((download_image ⟨"https://h.example/a.jpg", "", "", "", "", "", 0⟩
        BASE_URL ⟨[], [], []⟩ (some (200, [1])) false 0 none).1 = none ∧
      (download_image ⟨"https://h.example/a.jpg", "", "", "", "", "", 0⟩
        BASE_URL ⟨[], [], []⟩ (some (200, [1])) false 0
        none).2.downloaded_urls = ([] : List String)) ∧
    (true = true ∧
      ∃ content path,
        (some (200, [1]) : Option (Nat × List Nat)) = some (200, content) ∧
        (download_image ⟨"https://h.example/a.jpg", "", "", "", "", "", 0⟩
          BASE_URL ⟨[], [], []⟩ (some (200, [1])) true 0 none).2.files =
          [] ++ [(path, content)] ∧
        (download_image ⟨"https://h.example/a.jpg", "", "", "", "", "", 0⟩
          BASE_URL ⟨[], [], []⟩ (some (200, [1])) true 0 none).1.isSome =
          true) := by
  constructor
  · exact download_image_write_then_mark.1 _ _ _ _ _ _ _
      (Or.inr (Or.inr rfl))
  · exact download_image_write_then_mark.2
      ⟨"https://h.example/a.jpg", "", "", "", "", "", 0⟩ BASE_URL
      ⟨[], [], []⟩ (some (200, [1])) true 0 none (by decide)

/-- C10: `load_metadata` is total and never propagates an error: when the
file does not exist, when the read raises, or when the content is not
valid JSON, it returns the empty list, and the duplicate-tracker pre-seed
derived from it is empty. -/
theorem load_metadata_total :
    ∀ (fileExists : Bool) (readResult : Option String)
      (jsonParse : String → Option (List ImageRecord)),
      (fileExists = false ∨ readResult = none ∨
        (∀ c, readResult = some c → jsonParse c = none)) →
      load_metadata fileExists readResult jsonParse = [] ∧
      get_downloaded_urls_from_metadata
        (load_metadata fileExists readResult jsonParse) = [] := by
  intro fileExists readResult jsonParse h
  have hempty : load_metadata fileExists readResult jsonParse = [] := by
    rcases h with rfl | rfl | h
    · rfl
    · cases fileExists <;> rfl
    · cases fileExists with
      | false => rfl
      | true =>
        rcases readResult with _ | c
        · rfl
        · unfold load_metadata
          rw [if_pos rfl]
          simp only [h c rfl]
  exact ⟨hempty, by rw [hempty]; rfl⟩

/-- C10 witness: a missing file with a parser that always fails yields
the empty collection and an empty pre-seed. -/
theorem load_metadata_total_witness :
    load_metadata false none (fun _ => (none : Option (List ImageRecord)))
        = [] ∧
    get_downloaded_urls_from_metadata
      (load_metadata false none
        (fun _ => (none : Option (List ImageRecord)))) = [] :=
  load_metadata_total false none _ (Or.inl rfl)

theorem adv_extract_convention {u : String} {c : String}
    (h : adv_extract_category_from_url u = some c) :
    matchesPaginationConvention u = true := by
  unfold adv_extract_category_from_url at h
  unfold matchesPaginationConvention
  rcases hng : getQueryParam u "ng" with _ | v
  · rw [hng] at h
    have h' : getQueryParam u "galerie" = some c := h
    simp [hng, h']
  · simp [hng]

/-- C4: the pagination discoverer returns a link only if the category id
extracted from the (absolutized) link URL equals the category id
extracted from the current page's URL — a page without a category id
yields nothing — and the link's stripped text is purely numeric or its
URL carries a recognized pagination query parameter; the same holds for
the inline variant of `crawl_page_thoroughly`, whose returned links all
have purely numeric text. -/
theorem pagination_links_same_category :
    (∀ (url : String) (links : List LinkInfo) (u : String),
      u ∈ adv_get_pagination_urls url links →
      adv_extract_category_from_url u = adv_extract_category_from_url url ∧
      (adv_extract_category_from_url url).isSome = true ∧
      ∃ l ∈ links, u = advLinkUrl url l.href ∧
        (pyIsDigitStr (pyStrip l.text) = true ∨
          matchesPaginationConvention u = true)) ∧
    (∀ (url : String) (anchors : List LinkInfo) (u : String),
      u ∈ crawler_pagination_links url anchors →
      crawler_extract_category_from_url u =
        crawler_extract_category_from_url url ∧
      ∃ l ∈ anchors, u = crawlerLinkUrl url l.href ∧
        pyIsDigitStr (pyStrip l.text) = true) := by
  constructor
  · intro url links u hu
    unfold adv_get_pagination_urls at hu
    rcases hcat : adv_extract_category_from_url url with _ | current
    · rw [hcat] at hu
      cases hu
    · rw [hcat] at hu
      obtain ⟨l, hl, hfl⟩ := List.mem_filterMap.mp hu
      by_cases hhref : l.href = ""
      · simp [hhref] at hfl
      · simp only [hhref, if_false] at hfl
        by_cases hlc : adv_extract_category_from_url (advLinkUrl url l.href) =
            some current
        · simp only [hlc, if_pos rfl, if_true] at hfl
          by_cases hpag : (pyIsDigitStr (pyStrip l.text) ||
              PAGINATION_KEYWORDS.any (fun kw =>
                pyContains (pyStrip l.text) kw) ||
              CATEGORY_URL_PATTERNS.any (fun pat =>
                pyContains (advLinkUrl url l.href) pat) ||
              pyContains (pyLower (advLinkUrl url l.href)) "page=") = true
          · rw [if_pos hpag, Option.some.injEq] at hfl
            subst hfl
            refine ⟨hlc, rfl, l, hl, rfl, ?_⟩
            simp only [Bool.or_eq_true] at hpag
            rcases hpag with ((hd | _) | hp) | hp
            · exact Or.inl hd
            · exact Or.inr (adv_extract_convention hlc)
            · refine Or.inr ?_
              unfold matchesPaginationConvention
              simp [hp]
            · refine Or.inr ?_
              unfold matchesPaginationConvention
              simp [hp]
          · rw [if_neg (by simpa using hpag)] at hfl
            cases hfl
        · simp [hlc] at hfl
  · intro url anchors u hu
    unfold crawler_pagination_links at hu
    obtain ⟨l, hl, hfl⟩ := List.mem_filterMap.mp hu
    have hl' : l ∈ anchors := (List.mem_filter.mp hl).1
    by_cases hcond : l.href ≠ "" ∧ pyIsDigitStr (pyStrip l.text) = true
    · simp only [hcond, and_true, if_pos, ne_eq, hcond.1, not_false_eq_true,
        hcond.2, if_true] at hfl
      by_cases heq : crawler_extract_category_from_url
          (crawlerLinkUrl url l.href) = crawler_extract_category_from_url url
      · rw [if_pos heq, Option.some.injEq] at hfl
        subst hfl
        exact ⟨heq, l, hl', rfl, hcond.2⟩
      · rw [if_neg heq] at hfl
        cases hfl
    · rw [if_neg hcond] at hfl
      cases hfl

/-- C4 witness: on a concrete gallery page URL with one same-category
numbered link and one off-category link, the discoverer returns exactly
the same-category one, and the theorem's conclusions hold for it. -/
theorem pagination_links_same_category_witness :
    "https://fabienne-vincent.odexpo.com/default.asp?galerie=9&ng=Huiles&num=2"
        ∈ adv_get_pagination_urls
          "https://fabienne-vincent.odexpo.com/default.asp?galerie=9&ng=Huiles"
          [⟨"/default.asp?galerie=9&ng=Huiles&num=2", "2"⟩,
            ⟨"/default.asp?galerie=7&ng=Autres&num=2", "2"⟩] ∧
    adv_extract_category_from_url
        "https://fabienne-vincent.odexpo.com/default.asp?galerie=9&ng=Huiles&num=2" =
      adv_extract_category_from_url
        "https://fabienne-vincent.odexpo.com/default.asp?galerie=9&ng=Huiles" := by
  constructor
  · decide
  · exact (pagination_links_same_category.1
      "https://fabienne-vincent.odexpo.com/default.asp?galerie=9&ng=Huiles"
      [⟨"/default.asp?galerie=9&ng=Huiles&num=2", "2"⟩,
        ⟨"/default.asp?galerie=7&ng=Autres&num=2", "2"⟩]
      "https://fabienne-vincent.odexpo.com/default.asp?galerie=9&ng=Huiles&num=2"
      (by decide)).1

theorem crawl_step_visited (pages : String → List String) (fuel : Nat)
    (q visited : List String) (u : String) (hv : u ∈ visited) :
    crawl_category_completely pages (fuel + 1) (u :: q) visited =
      crawl_category_completely pages fuel q visited := by
  simp only [crawl_category_completely]
  rw [if_pos hv]

theorem crawl_step_new (pages : String → List String) (fuel : Nat)
    (q visited : List String) (u : String) (hv : u ∉ visited) :
    crawl_category_completely pages (fuel + 1) (u :: q) visited =
      match crawl_category_completely pages fuel
        (q ++ (pages u).filter (fun v => v ∉ u :: visited))
        (u :: visited) with
      | none => none
      | some ps => some (u :: ps) := by
  simp only [crawl_category_completely]
  rw [if_neg hv]

theorem crawl_processed_nodup (pages : String → List String) :
    ∀ (fuel : Nat) (q visited : List String) (ps : List String),
      crawl_category_completely pages fuel q visited = some ps →
      ps.Nodup ∧ ∀ p ∈ ps, p ∉ visited := by
  intro fuel
  induction fuel with
  | zero => intro q visited ps h; cases h
  | succ n ih =>
    intro q visited ps h
    rcases q with _ | ⟨u, q'⟩
    · rw [show crawl_category_completely pages (n + 1) [] visited =
        some [] from rfl, Option.some.injEq] at h
      subst h
      exact ⟨List.nodup_nil, by simp⟩
    · by_cases hv : u ∈ visited
      · rw [crawl_step_visited pages n q' visited u hv] at h
        exact ih q' visited ps h
      · rw [crawl_step_new pages n q' visited u hv] at h
        rcases hrec : crawl_category_completely pages n
            (q' ++ (pages u).filter (fun v => v ∉ u :: visited))
            (u :: visited) with _ | ps'
        · rw [hrec] at h; cases h
        · rw [hrec, Option.some.injEq] at h
          subst h
          obtain ⟨hnd, hnv⟩ := ih _ _ _ hrec
          refine ⟨List.nodup_cons.mpr ⟨?_, hnd⟩, ?_⟩
          · intro hu
            exact hnv u hu (List.mem_cons_self _ _)
          · intro p hp
            rcases List.mem_cons.mp hp with rfl | hp
            · exact hv
            · exact fun hpv => hnv p hp (List.mem_cons_of_mem _ hpv)

theorem crawl_terminates_aux (pages : String → List String)
    (U : Finset String) (hclosed : ∀ u ∈ U, ∀ v ∈ pages u, v ∈ U) :
    ∀ (fuel : Nat) (q visited : List String), (∀ u ∈ q, u ∈ U) →
      crawlMeasure pages U q visited < fuel →
      (crawl_category_completely pages fuel q visited).isSome = true := by
  intro fuel
  induction fuel with
  | zero => intro q visited _ hm; cases hm
  | succ n ih =>
    intro q visited hq hm
    rcases q with _ | ⟨u, q'⟩
    · rfl
    · by_cases hv : u ∈ visited
      · rw [crawl_step_visited pages n q' visited u hv]
        refine ih q' visited (fun x hx => hq x (List.mem_cons_of_mem _ hx)) ?_
        have : crawlMeasure pages U q' visited + 1 =
            crawlMeasure pages U (u :: q') visited := by
          unfold crawlMeasure
          simp only [List.length_cons]
          omega
        omega
      · have huU : u ∈ U := hq u (List.mem_cons_self _ _)
        have hfilter_eq : U.filter (fun x => x ∉ visited) =
            insert u (U.filter (fun x => x ∉ u :: visited)) := by
          ext x
          simp only [Finset.mem_filter, Finset.mem_insert, List.mem_cons]
          constructor
          · intro ⟨hxU, hxv⟩
            by_cases hxu : x = u
            · exact Or.inl hxu
            · exact Or.inr ⟨hxU, fun h => h.elim hxu hxv⟩
          · rintro (rfl | ⟨hxU, hxv⟩)
            · exact ⟨huU, hv⟩
            · exact ⟨hxU, fun h => hxv (Or.inr h)⟩
        have hnotmem : u ∉ U.filter (fun x => x ∉ u :: visited) := by
          simp [Finset.mem_filter]
        have hsum : ∑ x ∈ U.filter (fun x => x ∉ visited),
            (2 + (pages x).length) =
            (2 + (pages u).length) +
              ∑ x ∈ U.filter (fun x => x ∉ u :: visited),
                (2 + (pages x).length) := by
          rw [hfilter_eq, Finset.sum_insert hnotmem]
        set nq := q' ++ (pages u).filter (fun v => v ∉ u :: visited) with hnq
        have hnqU : ∀ x ∈ nq, x ∈ U := by
          intro x hx
          rcases List.mem_append.mp hx with hx | hx
          · exact hq x (List.mem_cons_of_mem _ hx)
          · exact hclosed u huU x (List.mem_of_mem_filter hx)
        have hnqlen : nq.length ≤ q'.length + (pages u).length := by
          rw [hnq, List.length_append]
          exact Nat.add_le_add_left (List.length_filter_le _ _) _
        have hmeas : crawlMeasure pages U nq (u :: visited) < n := by
          have h1 : crawlMeasure pages U (u :: q') visited =
              q'.length + 1 + ((2 + (pages u).length) +
                ∑ x ∈ U.filter (fun x => x ∉ u :: visited),
                  (2 + (pages x).length)) := by
            unfold crawlMeasure
            rw [List.length_cons]
            omega
          have h2 : crawlMeasure pages U nq (u :: visited) =
              nq.length + ∑ x ∈ U.filter (fun x => x ∉ u :: visited),
                (2 + (pages x).length) := rfl
          omega
        rw [crawl_step_new pages n q' visited u hv, ← hnq]
        rcases hrec : crawl_category_completely pages n nq (u :: visited)
          with _ | ps
        · exact absurd (ih nq (u :: visited) hnqU hmeas) (by simp [hrec])
        · rfl

/-- C3: for a category whose pages form a finite link structure (a
finite set `U` of URLs containing the seed and closed under the
pagination links, cycles allowed), `crawl_category_completely`
terminates — some fuel returns `some` — starting from the queue holding
exactly the seed and the empty visited set; every terminating run
processes each distinct URL at most once (the list of URLs passed to the
page crawler has no duplicates and avoids the initial visited set); and a
popped URL that is already visited-in-category is discarded as a no-op
of the remaining computation. -/
theorem crawl_category_completely_terminates :
    (∀ (pages : String → List String) (U : Finset String) (seed : String),
      seed ∈ U → (∀ u ∈ U, ∀ v ∈ pages u, v ∈ U) →
      ∃ fuel ps, crawl_category_completely pages fuel [seed] [] = some ps ∧
        ps.Nodup) ∧
    (∀ (pages : String → List String) (fuel : Nat) (q visited ps :
        List String),
      crawl_category_completely pages fuel q visited = some ps →
      ps.Nodup ∧ ∀ p ∈ ps, p ∉ visited) ∧
    (∀ (pages : String → List String) (fuel : Nat) (q visited :
        List String) (u : String),
      u ∈ visited →
      crawl_category_completely pages (fuel + 1) (u :: q) visited =
        crawl_category_completely pages fuel q visited) := by
  refine ⟨?_, ?_, ?_⟩
  · intro pages U seed hseed hclosed
    have h := crawl_terminates_aux pages U hclosed
      (crawlMeasure pages U [seed] [] + 1) [seed] []
      (by intro u hu; rcases List.mem_cons.mp hu with rfl | h
          · exact hseed
          · cases h)
      (Nat.lt_succ_self _)
    rcases hres : crawl_category_completely pages
        (crawlMeasure pages U [seed] [] + 1) [seed] [] with _ | ps
    · rw [hres] at h; cases h
    · exact ⟨_, ps, hres, (crawl_processed_nodup pages _ _ _ _ hres).1⟩
  · intro pages fuel q visited ps h
    exact crawl_processed_nodup pages fuel q visited ps h
  · intro pages fuel q visited u hu
    exact crawl_step_visited pages fuel q visited u hu

/-- C3 witness: a two-page category with cyclic pagination links
(`a ↔ b`) terminates and processes each URL once; and discarding a
popped visited URL is a no-op on a concrete queue. -/
theorem crawl_category_completely_terminates_witness :
    (∃ fuel ps,
      crawl_category_completely
        (fun u => if u = "a" then ["b"] else if u = "b" then ["a"] else [])
        fuel ["a"] [] = some ps ∧ ps.Nodup) ∧
    crawl_category_completely (fun _ => []) 3 ["x", "y"] ["x"] =
      crawl_category_completely (fun _ => []) 2 ["y"] ["x"] := by
  constructor
  · exact crawl_category_completely_terminates.1
      (fun u => if u = "a" then ["b"] else if u = "b" then ["a"] else [])
      ({"a", "b"} : Finset String) "a" (by decide) (by decide)
  · exact crawl_category_completely_terminates.2.2
      (fun _ => []) 2 ["y"] ["x"] "x" (by decide)

theorem renameStep_dry (s : RenameLoopState) (item : RenameItem) :
    (renameStep true s item).files = s.files ∧
    (renameStep true s item).dirs = s.dirs ∧
    (renameStep true s item).items = s.items ++ [item] := by
  unfold renameStep
  by_cases hA : item.filename = "" ∨ item.local_path = "" ∨
      item.local_path ∉ s.files
  · rw [if_pos hA]
    exact ⟨rfl, rfl, rfl⟩
  · rw [if_neg hA]
    dsimp only
    by_cases hB : item.filename = create_new_filename item.title
        item.filename ∧ item.category = clean_category item.category
    · rw [if_pos hB]
      exact ⟨rfl, rfl, rfl⟩
    · rw [if_neg hB, if_pos rfl]
      exact ⟨rfl, rfl, rfl⟩

theorem foldl_renameStep_dry :
    ∀ (items : List RenameItem) (s : RenameLoopState),
      (items.foldl (renameStep true) s).files = s.files ∧
      (items.foldl (renameStep true) s).dirs = s.dirs ∧
      (items.foldl (renameStep true) s).items = s.items ++ items := by
  intro items
  induction items with
  | nil => intro s; exact ⟨rfl, rfl, (List.append_nil _).symm⟩
  | cons item rest ih =>
    intro s
    have hstep := renameStep_dry s item
    have hrest := ih (renameStep true s item)
    simp only [List.foldl_cons]
    refine ⟨hrest.1.trans hstep.1, hrest.2.1.trans hstep.2.1, ?_⟩
    rw [hrest.2.2, hstep.2.2, List.append_assoc]
    rfl

/-- C8: with `dry_run = true`, `rename_files_in_metadata` changes
nothing: the filesystem (files, directories, metadata file) it returns is
the input filesystem, and the in-memory items come back exactly as
loaded — whatever names and categories were computed and reported. -/
theorem rename_dry_run_mutates_nothing (fs : RenameFs) :
    (rename_files_in_metadata fs true).2.1 = fs ∧
    (rename_files_in_metadata fs true).2.2 = fs.meta := by
  unfold rename_files_in_metadata
  by_cases hempty : fs.meta = []
  · rw [if_pos hempty]
    exact ⟨rfl, hempty.symm ▸ rfl⟩
  · rw [if_neg hempty]
    have h := foldl_renameStep_dry fs.meta ⟨[], fs.files, fs.dirs, 0, 0, []⟩
    dsimp only
    simp only [eq_self_iff_true, not_true, false_and, if_false]
    refine ⟨?_, h.2.2.trans (List.nil_append _)⟩
    rw [h.1, h.2.1]

end Scrap
